import Mathlib

/-!
Verification of the SVG post-processing core of md2conf (`src/md2conf/svg.py`).

The Python source is shallowly embedded: strings become `String`/`List Char`,
Python `float` values become an exact model (`PyFloat`, rationals extended with
infinities and NaN; float rounding error is not modelled), exceptions become
`Except PyErr`, and the XML facilities of `lxml.etree` that the source uses
(`fromstring`, element attributes, `nsmap`, `tostring`) are modelled by an
executable XML parser and serializer over decoded text.
-/

set_option maxRecDepth 100000

namespace Svg

/-- Decidable equality for `Except` results (needed to evaluate the model on
concrete inputs inside proofs). -/
instance {e a : Type} [DecidableEq e] [DecidableEq a] : DecidableEq (Except e a) := by
  intro x y
  cases x with
  | ok v =>
    cases y with
    | ok w =>
      exact if h : v = w then .isTrue (by rw [h]) else
        .isFalse (by intro hc; injection hc; contradiction)
    | error w => exact .isFalse (by intro hc; cases hc)
  | error v =>
    cases y with
    | ok w => exact .isFalse (by intro hc; cases hc)
    | error w =>
      exact if h : v = w then .isTrue (by rw [h]) else
        .isFalse (by intro hc; injection hc; contradiction)

/-- Python exception classes that the modelled code can raise. -/
inductive PyErr where
  | valueError
  | overflowError
  | xmlSyntaxError
  | unicodeDecodeError
deriving DecidableEq, Repr

/-- The whitespace characters recognized by Python's `str.strip()` / `str.split()`
(ASCII subset; the inputs at issue are ASCII). -/
def isPySpace (c : Char) : Bool :=
  c = ' ' || c = '\t' || c = '\n' || c = '\r' || c = '\x0b' || c = '\x0c'

/-- Python `str.strip()` on a character list. -/
def pyStripChars (cs : List Char) : List Char :=
  ((cs.dropWhile isPySpace).reverse.dropWhile isPySpace).reverse

/-- Python `str.strip()`. -/
def pyStrip (s : String) : String :=
  ⟨pyStripChars s.data⟩

/-- Split a character list at every element satisfying `p`, keeping empty pieces
(the semantics of Python `re.split` on a single-character class, and the
skeleton of `str.split()`). -/
def splitPKeep (p : Char → Bool) : List Char → List (List Char)
  | [] => [[]]
  | c :: cs =>
    match splitPKeep p cs with
    | [] => [[]]
    | w :: ws => if p c then [] :: w :: ws else (c :: w) :: ws

/-- Python `str.split()` with no argument: split on whitespace runs, dropping
empty pieces. -/
def pySplitChars (cs : List Char) : List (List Char) :=
  (splitPKeep isPySpace cs).filter (· ≠ [])

/-- Python `str.split()` with no argument, on `String`. -/
def pySplit (s : String) : List String :=
  (pySplitChars s.data).map fun w => ⟨w⟩

/-- Python `str.split(sep)` for a one-character separator `sep`: split at every
occurrence, keeping empty pieces. -/
def splitOnChar (sep : Char) : List Char → List (List Char)
  | [] => [[]]
  | c :: cs =>
    match splitOnChar sep cs with
    | [] => [[]]
    | w :: ws => if c = sep then [] :: w :: ws else (c :: w) :: ws

/-- Python `str.split("\\n")` for the two-character literal backslash-n
separator: split at every (leftmost, non-overlapping) occurrence, keeping
empty pieces. -/
def splitOnBackslashN : List Char → List (List Char)
  | [] => [[]]
  | '\\' :: 'n' :: cs =>
    match splitOnBackslashN cs with
    | [] => [[]]
    | w :: ws => [] :: w :: ws
  | c :: cs =>
    match splitOnBackslashN cs with
    | [] => [[]]
    | w :: ws => (c :: w) :: ws

/-- Numeric value of a list of decimal digit characters. -/
def natOfDigits : List Char → Nat
  | [] => 0
  | c :: cs => natOfDigits cs + c.toNat.sub 48 * 10 ^ cs.length

/-- Longest leading run of decimal digits possibly containing single
underscores between digits (Python numeric-literal syntax accepted by
`float()`); returns the digits with underscores removed, and the rest of the
input. A trailing or doubled underscore ends the run before the underscore. -/
def pyDigitsAux : List Char → List Char × List Char
  | [] => ([], [])
  | [c] => if c.isDigit then ([c], []) else ([], [c])
  | c :: c2 :: cs =>
    if c.isDigit then
      if c2 = '_' then
        match cs with
        | d :: rest =>
          if d.isDigit then
            let (ds, r) := pyDigitsAux (d :: rest)
            (c :: ds, r)
          else ([c], c2 :: d :: rest)
        | [] => ([c], [c2])
      else
        let (ds, r) := pyDigitsAux (c2 :: cs)
        (c :: ds, r)
    else ([], c :: c2 :: cs)

/-- An exact rational as an unreduced numerator/denominator pair.  Every
value the model constructs keeps `den` positive; operations do not normalize
(so that they reduce inside the kernel, which `Rat`'s gcd-based
normalization does not), and value comparisons cross-multiply. -/
structure Frac where
  num : Int
  den : Int
deriving DecidableEq, Repr

namespace Frac

/-- The rational value of a fraction, connecting the executable model to
mathematical statements. -/
def val (a : Frac) : ℚ := (a.num : ℚ) / (a.den : ℚ)

/-- Embed an integer. -/
def ofInt (n : Int) : Frac := ⟨n, 1⟩

/-- Embed a natural number. -/
def ofN (n : Nat) : Frac := ⟨n, 1⟩

instance : OfNat Frac n := ⟨⟨n, 1⟩⟩

/-- Exact addition. -/
def add (a b : Frac) : Frac := ⟨a.num * b.den + b.num * a.den, a.den * b.den⟩

/-- Negation. -/
def neg (a : Frac) : Frac := ⟨-a.num, a.den⟩

/-- Exact subtraction. -/
def sub (a b : Frac) : Frac := add a (neg b)

/-- Exact multiplication. -/
def mul (a b : Frac) : Frac := ⟨a.num * b.num, a.den * b.den⟩

/-- Exact division by a positive integer constant. -/
def divInt (a : Frac) (c : Int) : Frac := ⟨a.num, a.den * c⟩

/-- Value comparison `<` (for positive denominators). -/
def blt (a b : Frac) : Bool := a.num * b.den < b.num * a.den

/-- Value comparison `=` (for positive denominators). -/
def beq (a b : Frac) : Bool := a.num * b.den = b.num * a.den

/-- Is the value zero? -/
def isZero (a : Frac) : Bool := a.num = 0

/-- Is the value positive (for a positive denominator)? -/
def isPos (a : Frac) : Bool := 0 < a.num

end Frac

/-- The value model for Python `float`: exact rationals extended with the two
infinities and NaN.  Rounding error of binary floating point is not modelled;
arithmetic on finite values is exact rational arithmetic. -/
inductive PyFloat where
  | finite (q : Frac)
  | inf
  | ninf
  | nan
deriving DecidableEq, Repr

namespace PyFloat

/-- Python `<` on floats (any comparison with NaN is false). -/
def lt : PyFloat → PyFloat → Bool
  | finite a, finite b => a.blt b
  | finite _, inf => true
  | ninf, finite _ => true
  | ninf, inf => true
  | _, _ => false

/-- Python `==` on floats (NaN is not equal to anything, including itself). -/
def eqF : PyFloat → PyFloat → Bool
  | finite a, finite b => a.beq b
  | inf, inf => true
  | ninf, ninf => true
  | _, _ => false

/-- Python `<=` on floats. -/
def le (a b : PyFloat) : Bool := lt a b || eqF a b

/-- Python `+` on floats. -/
def add : PyFloat → PyFloat → PyFloat
  | finite a, finite b => finite (a.add b)
  | finite _, inf => inf
  | finite _, ninf => ninf
  | inf, finite _ => inf
  | ninf, finite _ => ninf
  | inf, inf => inf
  | ninf, ninf => ninf
  | _, _ => nan

/-- Python unary negation on floats. -/
def neg : PyFloat → PyFloat
  | finite a => finite a.neg
  | inf => ninf
  | ninf => inf
  | nan => nan

/-- Python `-` on floats. -/
def sub (a b : PyFloat) : PyFloat := add a (neg b)

/-- Python `*` on floats. -/
def mul : PyFloat → PyFloat → PyFloat
  | finite a, finite b => finite (a.mul b)
  | nan, _ => nan
  | _, nan => nan
  | inf, inf => inf
  | inf, ninf => ninf
  | ninf, inf => ninf
  | ninf, ninf => inf
  | finite a, inf => if a.isZero then nan else if a.isPos then inf else ninf
  | finite a, ninf => if a.isZero then nan else if a.isPos then ninf else inf
  | inf, finite a => if a.isZero then nan else if a.isPos then inf else ninf
  | ninf, finite a => if a.isZero then nan else if a.isPos then ninf else inf

/-- Python `/` by a positive integer constant (the only divisions the source
performs). -/
def divc (a : PyFloat) (c : Int) : PyFloat :=
  match a with
  | finite q => finite (q.divInt c)
  | b => b

/-- Embedding of a natural number (e.g. Python `len(...)`) into the float model. -/
def ofNat (n : Nat) : PyFloat := finite (.ofN n)

end PyFloat

/-- Python `round()` to the nearest integer, ties to even, on an exact
rational with positive denominator: floor, then compare the remainder with
one half. -/
def roundHalfEven (q : Frac) : Int :=
  let f := Int.fdiv q.num q.den
  let rNum := q.num - f * q.den
  if 2 * rNum < q.den then f
  else if q.den < 2 * rNum then f + 1
  else if f % 2 = 0 then f else f + 1

/-- Python `int(round(x))` on a float: `ValueError` on NaN, `OverflowError` on
an infinity, otherwise round half to even. -/
def pyRoundF : PyFloat → Except PyErr Int
  | .nan => .error .valueError
  | .inf => .error .overflowError
  | .ninf => .error .overflowError
  | .finite q => .ok (roundHalfEven q)

/-- Longest leading run of plain decimal digits (regex `\d*`). -/
def digitRun : List Char → List Char × List Char
  | [] => ([], [])
  | c :: cs =>
    if c.isDigit then
      let (ds, r) := digitRun cs
      (c :: ds, r)
    else ([], c :: cs)

/-- Exact rational value of an integer digit part and a fractional digit
part: `ip.fp` as the fraction `(ip * 10^|fp| + fp) / 10^|fp|`. -/
def decimalValue (ip fp : List Char) : Frac :=
  ⟨natOfDigits ip * 10 ^ fp.length + natOfDigits fp, 10 ^ fp.length⟩

/-- Python `float(s)`: optional surrounding whitespace, optional sign, then
`inf`/`infinity`/`nan` (case-insensitive) or a decimal literal with optional
exponent and single underscores between digits.  Returns `none` where Python
raises `ValueError`. -/
def pyFloatOfChars (cs0 : List Char) : Option PyFloat :=
  let cs1 := pyStripChars cs0
  let (neg, cs) :=
    match cs1 with
    | '+' :: r => (false, r)
    | '-' :: r => (true, r)
    | r => (false, r)
  let low := cs.map Char.toLower
  if low = "inf".data || low = "infinity".data then
    some (if neg then .ninf else .inf)
  else if low = "nan".data then some .nan
  else
    let (ip, rest) := pyDigitsAux cs
    let (fp, rest2) :=
      match rest with
      | '.' :: r => pyDigitsAux r
      | r => ([], r)
    if ip = [] && fp = [] then none
    else
      let mant : Frac := decimalValue ip fp
      match rest2 with
      | [] => some (.finite (if neg then mant.neg else mant))
      | e :: r =>
        if e = 'e' || e = 'E' then
          let (eneg, r2) :=
            match r with
            | '+' :: r2 => (false, r2)
            | '-' :: r2 => (true, r2)
            | r2 => (false, r2)
          let (ed, r3) := pyDigitsAux r2
          if ed = [] || r3 ≠ [] then none
          else
            let v : Frac :=
              if eneg then ⟨mant.num, mant.den * 10 ^ natOfDigits ed⟩
              else ⟨mant.num * 10 ^ natOfDigits ed, mant.den⟩
            some (.finite (if neg then v.neg else v))
        else none

/-- Python `float(s)` on a `String`. -/
def pyFloatOfString (s : String) : Option PyFloat :=
  pyFloatOfChars s.data

/-- The numeric part of the length regex
`^([+-]?(?:\d+\.?\d*|\.\d+))(...)?$` of `_parse_svg_length`: an optional sign
followed by `\d+\.?\d*` or `\.\d+`; returns the exact rational value and the
remaining characters (which the regex requires to be a unit suffix or empty).
No exponents, underscores, infinities or NaN are accepted here, so Python's
subsequent `float(num_str)` always succeeds and is exact. -/
def parseLengthBody (neg : Bool) (cs : List Char) : Option (Frac × List Char) :=
  match digitRun cs with
  | ([], _) =>
    match cs with
    | '.' :: r =>
      match digitRun r with
      | ([], _) => none
      | (fp, rest) =>
        some ((if neg then (decimalValue [] fp).neg else decimalValue [] fp), rest)
    | _ => none
  | (ip, rest1) =>
    let (fp, rest2) :=
      match rest1 with
      | '.' :: r => digitRun r
      | r => ([], r)
    some ((if neg then (decimalValue ip fp).neg else decimalValue ip fp), rest2)

/-- The sign handling of the length regex, delegating to `parseLengthBody`. -/
def parseLengthNumber (cs0 : List Char) : Option (Frac × List Char) :=
  match cs0 with
  | '+' :: r => parseLengthBody false r
  | '-' :: r => parseLengthBody true r
  | r => parseLengthBody false r

/-- Unit conversion factors of `_parse_svg_length` (96 DPI, 16 px base font).
`none` for the percent unit, which the source cannot resolve. -/
def unitFactor : List Char → Option (Option Frac)
  | [] => some (some 1)
  | u =>
    if u = "px".data then some (some 1)
    else if u = "pt".data then some (some ⟨96, 72⟩)
    else if u = "in".data then some (some 96)
    else if u = "cm".data then some (some ⟨9600, 254⟩)
    else if u = "mm".data then some (some ⟨960, 254⟩)
    else if u = "pc".data then some (some ⟨96, 6⟩)
    else if u = "em".data then some (some 16)
    else if u = "ex".data then some (some 8)
    else if u = "%".data then some none
    else none

/-- `_parse_svg_length` from `svg.py`: parses an SVG length value and converts
it to pixels, returning `none` where the source returns `None`. -/
def parse_svg_length (value : String) : Option Int :=
  if value = "" then none
  else
    match parseLengthNumber (pyStripChars value.data) with
    | none => none
    | some (q, rest) =>
      match unitFactor (rest.map Char.toLower) with
      | none => none
      | some none => none
      | some (some f) => some (roundHalfEven (q.mul f))

/-- Python `re.split(r"[\s,]+", s)`: split on maximal runs of whitespace or
commas; a leading (resp. trailing) separator run contributes one leading
(resp. trailing) empty piece, and the result for the empty string is one
empty piece. -/
def reSplitWsComma (cs : List Char) : List (List Char) :=
  let sepP : Char → Bool := fun c => isPySpace c || c = ','
  match cs with
  | [] => [[]]
  | c :: _ =>
    let mid := (splitPKeep sepP cs).filter (· ≠ [])
    let lead : List (List Char) := if sepP c then [[]] else []
    let trail : List (List Char) := if sepP (cs.getLastD 'a') then [[]] else []
    lead ++ mid ++ trail

/-- `_parse_viewbox` from `svg.py`: parses an SVG `viewBox` attribute and
extracts width and height.  The source catches only `ValueError` (raised by
`float` on a non-numeric field and by `round` on NaN); the `OverflowError`
raised by `round` on an infinite field propagates out and is modelled as
`Except.error`. -/
def parse_viewbox (viewbox : String) : Except PyErr (Option Int × Option Int) :=
  if viewbox = "" then .ok (none, none)
  else
    let parts := reSplitWsComma (pyStripChars viewbox.data)
    if parts.length ≠ 4 then .ok (none, none)
    else
      match pyFloatOfChars (parts.getD 2 []) with
      | none => .ok (none, none)
      | some f2 =>
        match pyRoundF f2 with
        | .error .valueError => .ok (none, none)
        | .error e => .error e
        | .ok w =>
          match pyFloatOfChars (parts.getD 3 []) with
          | none => .ok (none, none)
          | some f3 =>
            match pyRoundF f3 with
            | .error .valueError => .ok (none, none)
            | .error e => .error e
            | .ok h => .ok (some w, some h)

/-- Decimal digits of a natural number, most significant first (fuel-driven so
that it reduces in the kernel; `fuel` must exceed the number of digits). -/
def natToDigitsAux : Nat → Nat → List Char
  | 0, _ => []
  | f + 1, n =>
    if n < 10 then [Char.ofNat (n + 48)]
    else natToDigitsAux f (n / 10) ++ [Char.ofNat (n % 10 + 48)]

/-- Python `str` of a natural number. -/
def natToString (n : Nat) : List Char :=
  natToDigitsAux (n + 1) n

/-- Python `str` of an `int`. -/
def intToString (n : Int) : List Char :=
  if n < 0 then '-' :: natToString n.natAbs else natToString n.natAbs

/-- `_estimate_text_width` from `svg.py`: estimated pixel width of `text`,
`len(text) * (font_size * 0.6)`. -/
def estimate_text_width (text : String) (font_size : PyFloat) : PyFloat :=
  PyFloat.mul (PyFloat.ofNat text.length) (PyFloat.mul font_size (PyFloat.finite ⟨6, 10⟩))

/-- The `for word in words` loop of `_word_wrap_text`, with the loop state
(`lines`, `current_line`, `current_width`) made explicit; flushes the last
line when the words run out. -/
def wordWrapLoop (max_width font_size space_width : PyFloat) :
    List String → List String → List String → PyFloat → List String
  | [], lines, current_line, _ =>
    if current_line ≠ [] then lines ++ [String.intercalate " " current_line] else lines
  | word :: ws, lines, current_line, current_width =>
    let word_width := estimate_text_width word font_size
    let new_width :=
      PyFloat.add
        (PyFloat.add current_width
          (if current_line ≠ [] then space_width else PyFloat.finite 0))
        word_width
    if PyFloat.le new_width max_width || current_line = [] then
      wordWrapLoop max_width font_size space_width ws lines (current_line ++ [word]) new_width
    else
      wordWrapLoop max_width font_size space_width ws
        (lines ++ [String.intercalate " " current_line]) [word] word_width

/-- `_word_wrap_text` from `svg.py`: wraps text to fit within a maximum pixel
width, greedily packing whitespace-delimited words. -/
def word_wrap_text (text : String) (max_width font_size : PyFloat) : List String :=
  if PyFloat.le max_width (PyFloat.finite 0) then [text]
  else if PyFloat.le (estimate_text_width text font_size) max_width then [text]
  else
    let words := pySplit text
    if words = [] then [text]
    else
      wordWrapLoop max_width font_size (estimate_text_width " " font_size)
        words [] [] (PyFloat.finite 0)

mutual
/-- The `lxml.etree._Element` data the source reads and writes: the expanded
tag (`{uri}local` for a namespaced element), the attributes in document order
with expanded names and namespace declarations excluded, the `nsmap` of
namespace declarations in scope (prefix `none` is the default namespace),
the leading text, the tail text following the element, and the child
elements in document order. -/
inductive XmlElem where
  | mk (tag : String) (attrs : List (String × String))
       (nsmap : List (Option String × String))
       (text : Option String) (tail : Option String) (children : XmlChildren)

/-- Ordered child elements (a mutual list so that all recursion over the tree
is structural). -/
inductive XmlChildren where
  | nil
  | cons (child : XmlElem) (rest : XmlChildren)
end

/-- The expanded tag of an element. -/
def XmlElem.tag : XmlElem → String
  | .mk t _ _ _ _ _ => t

/-- The attributes of an element, in document order. -/
def XmlElem.attrs : XmlElem → List (String × String)
  | .mk _ a _ _ _ _ => a

/-- The namespace declarations in scope at an element (`elem.nsmap`). -/
def XmlElem.nsmap : XmlElem → List (Option String × String)
  | .mk _ _ m _ _ _ => m

/-- The text directly inside an element, before any child (`elem.text`). -/
def XmlElem.text : XmlElem → Option String
  | .mk _ _ _ t _ _ => t

/-- The text following the element's end tag (`elem.tail`). -/
def XmlElem.tail : XmlElem → Option String
  | .mk _ _ _ _ t _ => t

/-- The children of an element. -/
def XmlElem.children : XmlElem → XmlChildren
  | .mk _ _ _ _ _ c => c

/-- The attribute-key predicate used by attribute lookup. -/
def keyIs (name : String) : String × String → Bool :=
  fun a => a.1 = name

/-- `elem.get(name)`: the value of the attribute `name`, if present. -/
def XmlElem.get (e : XmlElem) (name : String) : Option String :=
  (e.attrs.find? (keyIs name)).map (·.2)

/-- `elem.get(name, default)`: attribute lookup with a default value. -/
def XmlElem.getD (e : XmlElem) (name default : String) : String :=
  (e.get name).getD default

/-- Children as a `List`. -/
def XmlChildren.toList : XmlChildren → List XmlElem
  | .nil => []
  | .cons c rest => c :: rest.toList

/-- Python `str.lower()` (via `Char.toLower`, which covers the ASCII range
the source compares against). -/
def lowerStr (s : String) : String :=
  ⟨s.data.map Char.toLower⟩

/-- `local_name = elem.tag.split("}")[-1] if "}" in elem.tag else elem.tag`
from `_extract_text_lines_from_element`. -/
def localName (tag : String) : String :=
  if tag.data.contains '\x7d' then
    ⟨(splitOnChar '\x7d' tag.data).getLastD []⟩
  else tag

/-- `split_on_newlines` from `_extract_text_lines_from_element`: split first
on actual newline characters, then each piece on the two-character literal
backslash-n sequence. -/
def splitOnNewlines (t : String) : List String :=
  (((splitOnChar '\n' t.data).map splitOnBackslashN).flatten).map fun w => ⟨w⟩

/-- The mutable state of `_extract_text_lines_from_element`: the completed
`lines` and the parts of the `current_line` accumulator. -/
structure ExtractState where
  lines : List String
  cur : List String

/-- `flush_line`: join the accumulator, strip it, keep it only if non-empty,
and clear the accumulator. -/
def flushLine (st : ExtractState) : ExtractState :=
  let text := pyStrip (String.join st.cur)
  { lines := if text ≠ "" then st.lines ++ [text] else st.lines, cur := [] }

/-- The `for i, part in enumerate(parts)` loops of the extractor: append each
part to the accumulator and flush between consecutive parts. -/
def addParts : List String → ExtractState → ExtractState
  | [], st => st
  | [p], st => { st with cur := st.cur ++ [p] }
  | p :: q :: rest, st =>
    addParts (q :: rest) (flushLine { st with cur := st.cur ++ [p] })

/-- Process one falsy-checked optional text (`if elem.text:` / `if child.tail:`). -/
def addOptText (t : Option String) (st : ExtractState) : ExtractState :=
  match t with
  | some s => if s ≠ "" then addParts (splitOnNewlines s) st else st
  | none => st

mutual
/-- `process_element` from `_extract_text_lines_from_element`: a `<br>`
element (case-insensitive local name, any namespace) flushes the line;
otherwise the element's text is split on line breaks and accumulated, and the
children are processed in order, each followed by its tail text. -/
def processElem (e : XmlElem) (st : ExtractState) : ExtractState :=
  match e with
  | .mk tag _ _ text _ children =>
    if lowerStr (localName tag) = "br" then flushLine st
    else processChildren children (addOptText text st)

/-- The `for child in elem` loop of `process_element`. -/
def processChildren : XmlChildren → ExtractState → ExtractState
  | .nil, st => st
  | .cons c rest, st =>
    processChildren rest (addOptText c.tail (processElem c st))
end

/-- `_extract_text_lines_from_element` from `svg.py`. -/
def extract_text_lines_from_element (e : XmlElem) : List String :=
  (flushLine (processElem e ⟨[], []⟩)).lines

/-! ### UTF-8

`fix_svg_dimensions` decodes its input with `data.decode("utf-8")` and
re-encodes its output; the decoder is strict (it rejects truncated sequences,
stray continuation bytes, overlong forms and surrogates, raising
`UnicodeDecodeError`), which the model mirrors so that decoding and
re-encoding round-trip exactly. -/

/-- UTF-8 encoding of one character. -/
def utf8EncodeChar (c : Char) : List Nat :=
  let n := c.toNat
  if n < 0x80 then [n]
  else if n < 0x800 then [0xC0 + n / 0x40, 0x80 + n % 0x40]
  else if n < 0x10000 then
    [0xE0 + n / 0x1000, 0x80 + n / 0x40 % 0x40, 0x80 + n % 0x40]
  else
    [0xF0 + n / 0x40000, 0x80 + n / 0x1000 % 0x40, 0x80 + n / 0x40 % 0x40,
     0x80 + n % 0x40]

/-- UTF-8 encoding of a character list (Python `str.encode("utf-8")`). -/
def utf8Encode (cs : List Char) : List Nat :=
  (cs.map utf8EncodeChar).flatten

/-- Continuation byte test. -/
def isCont (b : Nat) : Bool := 0x80 ≤ b && b ≤ 0xBF

/-- Strict UTF-8 decoding (Python `bytes.decode("utf-8")`); `none` models
`UnicodeDecodeError`. -/
def utf8DecodeF : Nat → List Nat → Option (List Char)
  | _, [] => some []
  | 0, _ :: _ => none
  | f + 1, b :: rest =>
    if b < 0x80 then
      (utf8DecodeF f rest).map fun cs => Char.ofNat b :: cs
    else if 0xC2 ≤ b && b ≤ 0xDF then
      match rest with
      | b2 :: rest2 =>
        if isCont b2 then
          (utf8DecodeF f rest2).map fun cs =>
            Char.ofNat ((b - 0xC0) * 0x40 + (b2 - 0x80)) :: cs
        else none
      | [] => none
    else if 0xE0 ≤ b && b ≤ 0xEF then
      match rest with
      | b2 :: b3 :: rest3 =>
        let lo2 : Nat := if b = 0xE0 then 0xA0 else 0x80
        let hi2 : Nat := if b = 0xED then 0x9F else 0xBF
        if lo2 ≤ b2 && b2 ≤ hi2 && isCont b3 then
          (utf8DecodeF f rest3).map fun cs =>
            Char.ofNat ((b - 0xE0) * 0x1000 + (b2 - 0x80) * 0x40 + (b3 - 0x80)) :: cs
        else none
      | _ => none
    else if 0xF0 ≤ b && b ≤ 0xF4 then
      match rest with
      | b2 :: b3 :: b4 :: rest4 =>
        let lo2 : Nat := if b = 0xF0 then 0x90 else 0x80
        let hi2 : Nat := if b = 0xF4 then 0x8F else 0xBF
        if lo2 ≤ b2 && b2 ≤ hi2 && isCont b3 && isCont b4 then
          (utf8DecodeF f rest4).map fun cs =>
            Char.ofNat ((b - 0xF0) * 0x40000 + (b2 - 0x80) * 0x1000 +
              (b3 - 0x80) * 0x40 + (b4 - 0x80)) :: cs
        else none
      | _ => none
    else none
termination_by structural f _ => f

/-- Strict UTF-8 decoding of a byte list (Python `bytes.decode("utf-8")`),
driven by a fuel bound that the wrapper sets to the length. -/
def utf8Decode (data : List Nat) : Option (List Char) :=
  utf8DecodeF data.length data

/-! ### XML parsing

An executable model of `lxml.etree.fromstring` on decoded text, covering the
XML subset the source exercises: prolog (XML declaration, processing
instructions, comments), namespaced elements and attributes, character and
numeric entity references, CDATA sections, and comment/PI skipping inside
content.  Not modelled: DOCTYPE declarations (rejected), comment and PI
*nodes* in element content (they are skipped and adjacent text merged, where
lxml would keep them as children), and the implicit `xml:` namespace prefix.
Parse failure models `lxml.etree.XMLSyntaxError`. -/

/-- XML whitespace. -/
def isXmlSpace (c : Char) : Bool :=
  c = ' ' || c = '\t' || c = '\n' || c = '\r'

/-- First character of an XML name. -/
def isNameStart (c : Char) : Bool :=
  c.isAlpha || c = '_' || c = ':' || 0x80 ≤ c.toNat

/-- Subsequent character of an XML name. -/
def isNameChar (c : Char) : Bool :=
  isNameStart c || c.isDigit || c = '-' || c = '.'

/-- Parse an XML name: one name-start character then a run of name
characters. -/
def parseXmlName (cs : List Char) : Option (List Char × List Char) :=
  match cs with
  | [] => none
  | c :: rest =>
    if isNameStart c then
      let (xs, r) := rest.span isNameChar
      some (c :: xs, r)
    else none

/-- Value of a run of hexadecimal digit characters. -/
def natOfHexDigits : List Char → Option Nat
  | [] => none
  | ds =>
    ds.foldl (fun acc? c =>
      match acc? with
      | none => none
      | some acc =>
        if c.isDigit then some (acc * 16 + (c.toNat - 48))
        else if 'a' ≤ c && c ≤ 'f' then some (acc * 16 + (c.toNat - 87))
        else if 'A' ≤ c && c ≤ 'F' then some (acc * 16 + (c.toNat - 55))
        else none) (some 0)

/-- Decode one entity reference body (the part between `&` and `;`). -/
def decodeEntity (name : List Char) : Option (List Char) :=
  if name = "amp".data then some ['&']
  else if name = "lt".data then some ['<']
  else if name = "gt".data then some ['>']
  else if name = "quot".data then some ['"']
  else if name = "apos".data then some ['\'']
  else
    match name with
    | '#' :: 'x' :: ds =>
      match natOfHexDigits ds with
      | some n => if h : n.isValidChar then some [Char.ofNatAux n h] else none
      | none => none
    | '#' :: ds =>
      if ds ≠ [] && ds.all Char.isDigit then
        let n := natOfDigits ds
        if h : n.isValidChar then some [Char.ofNatAux n h] else none
      else none
    | _ => none

/-- Read one entity reference (input positioned after `&`): the decoded
characters and the rest after `;`. -/
def readEntity (cs : List Char) : Option (List Char × List Char) :=
  let (nm, r2) := cs.span fun c => c != ';' && c != '<' && c != '&'
  match r2 with
  | ';' :: r3 => (decodeEntity nm).map fun chars => (chars, r3)
  | _ => none

/-- Skip a comment (input positioned after `<!--`); `--` inside the body is a
well-formedness error. -/
def scanComment : Nat → List Char → Except PyErr (List Char)
  | 0, _ => .error .xmlSyntaxError
  | f + 1, cs =>
    match cs with
    | '-' :: '-' :: rest =>
      match rest with
      | '>' :: r => .ok r
      | _ => .error .xmlSyntaxError
    | _ :: rest => scanComment f rest
    | [] => .error .xmlSyntaxError

/-- Skip a processing instruction or XML declaration (input positioned after
`<?`). -/
def scanPI : Nat → List Char → Except PyErr (List Char)
  | 0, _ => .error .xmlSyntaxError
  | f + 1, cs =>
    match cs with
    | '?' :: '>' :: r => .ok r
    | _ :: rest => scanPI f rest
    | [] => .error .xmlSyntaxError

/-- Read a CDATA section body (input positioned after `<![CDATA[`). -/
def scanCData : Nat → List Char → List Char → Except PyErr (List Char × List Char)
  | 0, _, _ => .error .xmlSyntaxError
  | f + 1, cs, acc =>
    match cs with
    | ']' :: ']' :: '>' :: r => .ok (acc.reverse, r)
    | c :: rest => scanCData f rest (c :: acc)
    | [] => .error .xmlSyntaxError

/-- Read an attribute value up to the closing quote, decoding entities,
rejecting a raw `<`, and normalizing whitespace characters to spaces. -/
def scanAttrValue (q : Char) : Nat → List Char → List Char → Except PyErr (List Char × List Char)
  | 0, _, _ => .error .xmlSyntaxError
  | f + 1, cs, acc =>
    match cs with
    | [] => .error .xmlSyntaxError
    | c :: rest =>
      if c = q then .ok (acc.reverse, rest)
      else if c = '<' then .error .xmlSyntaxError
      else if c = '&' then
        match readEntity rest with
        | some (chars, r3) => scanAttrValue q f r3 (chars.reverse ++ acc)
        | none => .error .xmlSyntaxError
      else if c = '\t' || c = '\n' || c = '\r' then scanAttrValue q f rest (' ' :: acc)
      else scanAttrValue q f rest (c :: acc)

/-- Read character data up to the next `<` or the end of input, decoding
entities. -/
def scanText : Nat → List Char → List Char → Except PyErr (List Char × List Char)
  | 0, _, _ => .error .xmlSyntaxError
  | f + 1, cs, acc =>
    match cs with
    | [] => .ok (acc.reverse, [])
    | '<' :: _ => .ok (acc.reverse, cs)
    | '&' :: rest =>
      match readEntity rest with
      | some (chars, r3) => scanText f r3 (chars.reverse ++ acc)
      | none => .error .xmlSyntaxError
    | c :: rest => scanText f rest (c :: acc)

/-- Parse the attribute list of an opening tag, returning the raw
(name, value) pairs in document order, the rest of the input after `>` or
`/>`, and whether the tag was self-closing.  Attributes must be separated by
whitespace and duplicate raw names are a well-formedness error. -/
def parseAttrs : Nat → List Char → Bool → List (List Char × List Char) →
    Except PyErr (List (List Char × List Char) × List Char × Bool)
  | 0, _, _, _ => .error .xmlSyntaxError
  | f + 1, cs, first, acc =>
    let (sp, cs1) := cs.span isXmlSpace
    match cs1 with
    | '>' :: r => .ok (acc.reverse, r, false)
    | '/' :: '>' :: r => .ok (acc.reverse, r, true)
    | [] => .error .xmlSyntaxError
    | _ =>
      if !first && sp = [] then .error .xmlSyntaxError
      else
        match parseXmlName cs1 with
        | none => .error .xmlSyntaxError
        | some (nm, r1) =>
          if acc.any (fun a => a.1 = nm) then .error .xmlSyntaxError
          else
            match (r1.span isXmlSpace).2 with
            | '=' :: r3 =>
              match (r3.span isXmlSpace).2 with
              | q :: r5 =>
                if q = '"' || q = '\'' then
                  match scanAttrValue q f r5 [] with
                  | .error e => .error e
                  | .ok (val, r6) => parseAttrs f r6 false ((nm, val) :: acc)
                else .error .xmlSyntaxError
              | [] => .error .xmlSyntaxError
            | _ => .error .xmlSyntaxError

/-- Namespace environment lookup (first match; inner declarations are
prepended and so shadow outer ones). -/
def nsLookup (env : List (Option String × String)) (p : Option String) : Option String :=
  (env.find? (fun d => d.1 = p)).map (·.2)

/-- Split an XML name at its first colon. -/
def splitColon (nm : List Char) : Option (List Char × List Char) :=
  match nm.span (fun c => c != ':') with
  | (p, ':' :: l) => some (p, l)
  | _ => none

/-- Expand a raw tag name against a namespace environment: a declared prefix
or a non-empty default namespace yields the `{uri}local` form. -/
def expandTag (env : List (Option String × String)) (qname : List Char) : Except PyErr String :=
  match splitColon qname with
  | some (p, l) =>
    match nsLookup env (some ⟨p⟩) with
    | some uri => .ok ("\x7b" ++ uri ++ "\x7d" ++ String.mk l)
    | none => .error .xmlSyntaxError
  | none =>
    match nsLookup env none with
    | some uri => if uri = "" then .ok ⟨qname⟩ else .ok ("\x7b" ++ uri ++ "\x7d" ++ String.mk qname)
    | none => .ok ⟨qname⟩

/-- Expand a raw attribute name: unprefixed attributes are never in a
namespace; a prefixed attribute requires its prefix to be declared. -/
def expandAttrName (env : List (Option String × String)) (nm : List Char) : Except PyErr String :=
  match splitColon nm with
  | some (p, l) =>
    match nsLookup env (some ⟨p⟩) with
    | some uri => .ok ("\x7b" ++ uri ++ "\x7d" ++ String.mk l)
    | none => .error .xmlSyntaxError
  | none => .ok ⟨nm⟩

/-- Process the raw attributes of an opening tag: extract the namespace
declarations (which lxml keeps out of `attrib` and exposes via `nsmap`),
extend the environment, expand the tag and the remaining attribute names. -/
def buildTagAttrs (env : List (Option String × String)) (qname : List Char)
    (rawAttrs : List (List Char × List Char)) :
    Except PyErr (String × List (String × String) × List (Option String × String)) :=
  let decls : List (Option String × String) := rawAttrs.filterMap fun a =>
    if a.1 = "xmlns".data then some (none, ⟨a.2⟩)
    else if "xmlns:".data.isPrefixOf a.1 then some (some ⟨a.1.drop 6⟩, ⟨a.2⟩)
    else none
  let env' := decls ++ env
  let regular := rawAttrs.filter fun a =>
    !(a.1 = "xmlns".data) && !("xmlns:".data.isPrefixOf a.1)
  match expandTag env' qname with
  | .error e => .error e
  | .ok tag =>
    let step := fun (acc : Except PyErr (List (String × String))) (a : List Char × List Char) =>
      match acc with
      | .error e => .error e
      | .ok l =>
        match expandAttrName env' a.1 with
        | .error e => .error e
        | .ok n => .ok (l ++ [(n, String.mk a.2)])
    match regular.foldl step (.ok []) with
    | .error e => .error e
    | .ok attrs => .ok (tag, attrs, env')

/-- A parsed piece of element content: a run of character data or a child
element. -/
inductive ContentItem where
  | txt (s : List Char)
  | child (e : XmlElem)

/-- Replace the tail of an element. -/
def XmlElem.withTail : XmlElem → Option String → XmlElem
  | .mk tag attrs ns text _ children, t => .mk tag attrs ns text t children

/-- Assemble parsed content items into the leading text and the children with
their tails (adjacent text runs merged, as lxml does across entity and CDATA
boundaries). -/
def assembleAux : List ContentItem → List Char × XmlChildren
  | [] => ([], .nil)
  | item :: rest =>
    let (t, ch) := assembleAux rest
    match item with
    | .txt s => (s ++ t, ch)
    | .child e => ([], .cons (e.withTail (if t = [] then none else some ⟨t⟩)) ch)

/-- The leading text and children-with-tails of a content item list. -/
def assembleContent (items : List ContentItem) : Option String × XmlChildren :=
  let (t, ch) := assembleAux items
  (if t = [] then none else some ⟨t⟩, ch)

mutual
/-- Parse one element (input positioned after its opening `<`) in the given
namespace environment, returning the element and the rest of the input after
its closing tag. -/
def parseElemAfterLt : Nat → List (Option String × String) → List Char →
    Except PyErr (XmlElem × List Char)
  | 0, _, _ => .error .xmlSyntaxError
  | f + 1, env, cs =>
    match parseXmlName cs with
    | none => .error .xmlSyntaxError
    | some (qname, r1) =>
      match parseAttrs f r1 true [] with
      | .error e => .error e
      | .ok (rawAttrs, r2, selfClose) =>
        match buildTagAttrs env qname rawAttrs with
        | .error e => .error e
        | .ok (tag, attrs, env') =>
          if selfClose then .ok (.mk tag attrs env' none none .nil, r2)
          else
            match parseContent f env' r2 [] with
            | .error e => .error e
            | .ok (items, r3) =>
              match r3 with
              | '<' :: '/' :: r4 =>
                match parseXmlName r4 with
                | none => .error .xmlSyntaxError
                | some (cname, r5) =>
                  if cname = qname then
                    match (r5.span isXmlSpace).2 with
                    | '>' :: r6 =>
                      let (text, children) := assembleContent items
                      .ok (.mk tag attrs env' text none children, r6)
                    | _ => .error .xmlSyntaxError
                  else .error .xmlSyntaxError
              | _ => .error .xmlSyntaxError

/-- Parse element content up to (but not consuming) the closing `</`,
collecting text runs and child elements; comments and processing
instructions inside content are skipped. -/
def parseContent : Nat → List (Option String × String) → List Char → List ContentItem →
    Except PyErr (List ContentItem × List Char)
  | 0, _, _, _ => .error .xmlSyntaxError
  | f + 1, env, cs, acc =>
    match cs with
    | [] => .error .xmlSyntaxError
    | '<' :: '/' :: _ => .ok (acc.reverse, cs)
    | '<' :: '!' :: '-' :: '-' :: r2 =>
      match scanComment f r2 with
      | .error e => .error e
      | .ok r3 => parseContent f env r3 acc
    | '<' :: '!' :: '[' :: 'C' :: 'D' :: 'A' :: 'T' :: 'A' :: '[' :: r2 =>
      match scanCData f r2 [] with
      | .error e => .error e
      | .ok (txt, r3) => parseContent f env r3 (.txt txt :: acc)
    | '<' :: '!' :: _ => .error .xmlSyntaxError
    | '<' :: '?' :: r2 =>
      match scanPI f r2 with
      | .error e => .error e
      | .ok r3 => parseContent f env r3 acc
    | '<' :: r2 =>
      match parseElemAfterLt f env r2 with
      | .error e => .error e
      | .ok (e, r3) => parseContent f env r3 (.child e :: acc)
    | _ =>
      match scanText f cs [] with
      | .error e => .error e
      | .ok (txt, r2) => parseContent f env r2 (.txt txt :: acc)
end

/-- Skip inter-document whitespace, comments and processing instructions
(the prolog before the root element and the trailing miscellany after it).
DOCTYPE declarations are not modelled and are rejected. -/
def skipMisc : Nat → List Char → Except PyErr (List Char)
  | 0, _ => .error .xmlSyntaxError
  | f + 1, cs =>
    let cs1 := (cs.span isXmlSpace).2
    match cs1 with
    | '<' :: '?' :: rest =>
      match scanPI f rest with
      | .error e => .error e
      | .ok r => skipMisc f r
    | '<' :: '!' :: '-' :: '-' :: rest =>
      match scanComment f rest with
      | .error e => .error e
      | .ok r => skipMisc f r
    | '<' :: '!' :: _ => .error .xmlSyntaxError
    | _ => .ok cs1

/-- Parse a whole XML document from decoded text: prolog, root element,
trailing miscellany (the model of `lxml.etree.fromstring` on text). -/
def parseDocumentChars (cs : List Char) : Except PyErr XmlElem :=
  let f := cs.length + 2
  match skipMisc f cs with
  | .error e => .error e
  | .ok cs1 =>
    match cs1 with
    | '<' :: rest =>
      match parseElemAfterLt f [] rest with
      | .error e => .error e
      | .ok (root, r2) =>
        match skipMisc f r2 with
        | .error e => .error e
        | .ok r3 => if r3 = [] then .ok root else .error .xmlSyntaxError
    | _ => .error .xmlSyntaxError

/-- `lxml.etree.fromstring` on raw bytes: strict UTF-8 decoding followed by
document parsing. -/
def fromstringBytes (data : List Nat) : Except PyErr XmlElem :=
  match utf8Decode data with
  | none => .error .xmlSyntaxError
  | some cs => parseDocumentChars cs

/-! ### The Dimension Normalizer (`fix_svg_dimensions`) -/

/-- Word characters for the `\b` boundary of the regex `<svg\b[^>]*>`
(Python `\w`: ASCII letters, digits, underscore; non-ASCII approximated as
word characters). -/
def isWordChar (c : Char) : Bool :=
  c.isAlpha || c.isDigit || c = '_' || 0x80 ≤ c.toNat

/-- A match of the regex `<svg\b[^>]*>` anchored at the start of the input:
`<svg`, a non-word character boundary, then everything up to the first `>`.
Returns the matched substring and the rest. -/
def svgMatchHere (cs : List Char) : Option (List Char × List Char) :=
  match cs with
  | '<' :: 's' :: 'v' :: 'g' :: rest =>
    let bOK : Bool :=
      match rest with
      | [] => true
      | c :: _ => !isWordChar c
    if bOK then
      let (mid, r2) := rest.span fun c => c != '>'
      match r2 with
      | '>' :: r3 => some ('<' :: 's' :: 'v' :: 'g' :: (mid ++ ['>']), r3)
      | _ => none
    else none
  | _ => none

/-- `re.search(r"<svg\b[^>]*>", text)`: the leftmost match, as a
decomposition `(prefix, match, rest)` of the text. -/
def svgSearch : List Char → Option (List Char × List Char × List Char)
  | [] => none
  | c :: cs =>
    match svgMatchHere (c :: cs) with
    | some (m, rest) => some ([], m, rest)
    | none =>
      match svgSearch cs with
      | some (pre, m, post) => some (c :: pre, m, post)
      | none => none

/-- Python `text.replace(old, new, 1)`: replace the leftmost occurrence of
`old`, if any. -/
def replaceFirst (old new : List Char) : List Char → List Char
  | [] => if old = [] then new else []
  | c :: cs =>
    if old.isPrefixOf (c :: cs) then new ++ (c :: cs).drop old.length
    else c :: replaceFirst old new cs

/-- `elem.set(name, value)`: update the attribute in place if the name exists
(keeping document order), otherwise append it. -/
def XmlElem.setAttr (e : XmlElem) (name value : String) : XmlElem :=
  match e with
  | .mk tag attrs ns text tail children =>
    let attrs' :=
      if attrs.any (fun a => a.1 = name) then
        attrs.map fun a => if a.1 = name then (name, value) else a
      else attrs ++ [(name, value)]
    .mk tag attrs' ns text tail children

/-- `del elem.attrib[name]`. -/
def XmlElem.delAttr (e : XmlElem) (name : String) : XmlElem :=
  match e with
  | .mk tag attrs ns text tail children =>
    .mk tag (attrs.filter fun a => !(a.1 = name)) ns text tail children

/-- The style clean-up of `fix_svg_dimensions`: split on `;`, strip, drop
empty parts and parts starting with `max-width`, rejoin with `"; "`; `none`
when nothing remains (the attribute is then deleted). -/
def scrubStyle (style : String) : Option String :=
  let parts := ((splitOnChar ';' style.data).map pyStripChars).filter (· ≠ [])
  let kept := parts.filter fun p => !("max-width".data.isPrefixOf p)
  if kept ≠ [] then some ⟨List.intercalate "; ".data kept⟩ else none

/-- The namespace URI of SVG (`SVG_NAMESPACE` in the source). -/
def svgNamespace : String := "http://www.w3.org/2000/svg"

/-- The expanded tag `f"{{{SVG_NAMESPACE}}}svg"` of a namespaced SVG root. -/
def svgNsTag : String := "\x7b" ++ svgNamespace ++ "\x7dsvg"

/-- `_serialize_svg_opening_tag` from `svg.py`: serializes just the opening
tag of an SVG root element — the literal name `svg` for a namespaced tag,
the namespace declarations from `nsmap`, then the attributes, with prefixed
names recovered through `nsmap` and attribute values emitted verbatim
(without escaping, as the source's f-strings do). -/
def serialize_svg_opening_tag (root : XmlElem) : List Char :=
  let tagName :=
    if "\x7b".data.isPrefixOf root.tag.data then "svg".data else root.tag.data
  let nsParts := root.nsmap.map fun d =>
    match d.1 with
    | none => " xmlns=\"".data ++ d.2.data ++ ['"']
    | some pr => " xmlns:".data ++ pr.data ++ "=\"".data ++ d.2.data ++ ['"']
  let attrParts := root.attrs.map fun a =>
    if "\x7b".data.isPrefixOf a.1.data then
      let inner := a.1.data.drop 1
      let (uri, rest) := inner.span fun c => c != '\x7d'
      let lname := rest.drop 1
      let pfx :=
        match root.nsmap.find? (fun d => d.2.data = uri && !(d.1 = none)) with
        | some (some p, _) => some p
        | _ => none
      match pfx with
      | some p =>
        if p ≠ "" then
          [' '] ++ p.data ++ [':'] ++ lname ++ "=\"".data ++ a.2.data ++ ['"']
        else [' '] ++ lname ++ "=\"".data ++ a.2.data ++ ['"']
      | none => [' '] ++ lname ++ "=\"".data ++ a.2.data ++ ['"']
    else [' '] ++ a.1.data ++ "=\"".data ++ a.2.data ++ ['"']
  ['<'] ++ tagName ++ nsParts.flatten ++ attrParts.flatten ++ ['>']

/-- The style step of the Normalizer's rewriting: scrub `max-width` from a
non-empty `style` attribute, deleting the attribute when it becomes empty. -/
def scrubStyleAttr (root2 : XmlElem) : XmlElem :=
  match root2.get "style" with
  | some st =>
    if st ≠ "" then
      match scrubStyle st with
      | some st' => root2.setAttr "style" st'
      | none => root2.delAttr "style"
    else root2
  | none => root2

/-- The height step of the Normalizer's rewriting: set `height` to the
resolved viewBox height when it is absent or the percent token. -/
def setHeightAttr (root1 : XmlElem) (vbh : Int) : XmlElem :=
  if root1.get "height" = none || root1.get "height" = some "100%" then
    root1.setAttr "height" ⟨intToString vbh⟩
  else root1

/-- The attribute rewriting of `fix_svg_dimensions` on the structural copy:
width from the viewBox, then the height step, then the style scrub. -/
def normalizeRootAttrs (root : XmlElem) (vbw vbh : Int) : XmlElem :=
  scrubStyleAttr (setHeightAttr (root.setAttr "width" ⟨intToString vbw⟩) vbh)

/-- The body of `fix_svg_dimensions` (everything inside its `try`),
returning `Except.error` where the Python body raises. -/
def fixBody (data : List Nat) : Except PyErr (List Nat) :=
  match utf8Decode data with
  | none => .error .unicodeDecodeError
  | some text =>
    match parseDocumentChars text with
    | .error e => .error e
    | .ok root =>
      if !(root.tag = svgNsTag || root.tag = "svg") then .ok data
      else
        let width_attr := root.get "width"
        let alreadyNumeric : Bool :=
          match width_attr with
          | some w => w ≠ "100%" && (parse_svg_length w).isSome
          | none => false
        if alreadyNumeric then .ok data
        else
          match root.get "viewBox" with
          | none => .ok data
          | some vb =>
            if vb = "" then .ok data
            else
              match parse_viewbox vb with
              | .error e => .error e
              | .ok (vbw?, vbh?) =>
                match vbw?, vbh? with
                | some vbw, some vbh =>
                  match svgSearch text with
                  | none => .ok data
                  | some (_, original_tag, _) =>
                    .ok (utf8Encode (replaceFirst original_tag
                      (serialize_svg_opening_tag (normalizeRootAttrs root vbw vbh)) text))
                | _, _ => .ok data

/-- `fix_svg_dimensions` from `svg.py`: the body above inside
`try: ... except Exception: return data`. -/
def fix_svg_dimensions (data : List Nat) : List Nat :=
  match fixBody data with
  | .ok v => v
  | .error _ => data

/-! ### The Converter (`convert_foreign_object_to_text`) -/

/-- Multiplicity of the prime `p` in `n` (fuel-driven). -/
def multiplicityAux (p : Nat) : Nat → Nat → Nat
  | 0, _ => 0
  | f + 1, n => if n % p = 0 && 1 < n then multiplicityAux p f (n / p) + 1 else 0

/-- Euclid's gcd, fuel-driven so that it reduces inside the kernel (`Nat.gcd`
is defined by well-founded recursion and does not). -/
def gcdAux : Nat → Nat → Nat → Nat
  | 0, a, _ => a
  | f + 1, a, b => if b = 0 then a else gcdAux f b (a % b)

/-- Kernel-reducible gcd. -/
def natGcd (a b : Nat) : Nat := gcdAux (a + b + 1) a b

/-- Left-pad a digit list with zeros to width `k`. -/
def padZeros (k : Nat) (ds : List Char) : List Char :=
  List.replicate (k - ds.length) '0' ++ ds

/-- Python `str(x)` for a float.  Actual binary floats always print as a
finite decimal; in the exact model this holds whenever the reduced
denominator is of the form `2^a * 5^b` (which is the case for every value
the source computes), with a `num/den` fallback otherwise. -/
def pyFloatRepr (x : PyFloat) : String :=
  match x with
  | .inf => "inf"
  | .ninf => "-inf"
  | .nan => "nan"
  | .finite q =>
    let g := natGcd q.num.natAbs q.den.natAbs
    let nr := q.num.natAbs / g
    let den := q.den.natAbs / g
    let neg := (q.num < 0 && q.den > 0 && q.num ≠ 0) || (q.num > 0 && q.den < 0)
    let a := multiplicityAux 2 den den
    let b := multiplicityAux 5 den den
    let k := max a b
    if 2 ^ a * 5 ^ b = den then
      let m := nr * 10 ^ k / den
      let ip := m / 10 ^ k
      let fp := m % 10 ^ k
      let frac := if k = 0 then "0".data else padZeros k (natToString fp)
      ⟨(if neg then ['-'] else []) ++ natToString ip ++ ['.'] ++ frac⟩
    else ⟨intToString q.num ++ ['/'] ++ intToString q.den⟩

/-- Serializer escaping for attribute values. -/
def escAttrChars (cs : List Char) : List Char :=
  cs.flatMap fun c =>
    if c = '&' then "&amp;".data
    else if c = '<' then "&lt;".data
    else if c = '>' then "&gt;".data
    else if c = '"' then "&quot;".data
    else [c]

/-- Serializer escaping for text content. -/
def escTextChars (cs : List Char) : List Char :=
  cs.flatMap fun c =>
    if c = '&' then "&amp;".data
    else if c = '<' then "&lt;".data
    else if c = '>' then "&gt;".data
    else [c]

/-- Serialized form of one namespace declaration. -/
def declRepr (d : Option String × String) : List Char :=
  match d.1 with
  | none => " xmlns=\"".data ++ escAttrChars d.2.data ++ ['"']
  | some p => " xmlns:".data ++ p.data ++ "=\"".data ++ escAttrChars d.2.data ++ ['"']

/-- Serialized name of an expanded tag under the element's namespace scope,
together with an extra declaration when the namespace has no name in scope
(an approximation of lxml's generated prefixes). -/
def tagNameRepr (ns : List (Option String × String)) (t : List Char) :
    List Char × List Char :=
  if "\x7b".data.isPrefixOf t then
    let inner := t.drop 1
    let (uri, rest) := inner.span fun c => c != '\x7d'
    let lname := rest.drop 1
    if nsLookup ns none = some ⟨uri⟩ then (lname, [])
    else
      match ns.find? (fun d => d.2.data = uri && !(d.1 = none)) with
      | some (some p, _) => (p.data ++ [':'] ++ lname, [])
      | _ => (lname, " xmlns=\"".data ++ escAttrChars uri ++ ['"'])
  else (t, [])

/-- Serialized name of an expanded attribute name under the element's
namespace scope (prefix recovered from the scope; local name alone as an
approximation when none exists). -/
def attrNameRepr (ns : List (Option String × String)) (n : List Char) : List Char :=
  if "\x7b".data.isPrefixOf n then
    let inner := n.drop 1
    let (uri, rest) := inner.span fun c => c != '\x7d'
    let lname := rest.drop 1
    match ns.find? (fun d => d.2.data = uri && !(d.1 = none)) with
    | some (some p, _) => p.data ++ [':'] ++ lname
    | _ => lname
  else n

mutual
/-- A model of `lxml.etree.tostring(elem, encoding="unicode")`: namespace
declarations are emitted where they enter scope (`env` is the enclosing
scope), text and attribute values are escaped, childless textless elements
are self-closed, and the element's tail follows it. -/
def serializeElem (env : List (Option String × String)) (e : XmlElem) : List Char :=
  match e with
  | .mk tag attrs ns text tail children =>
    let (nameRepr, extra) := tagNameRepr ns tag.data
    let decls := ((ns.filter fun d => !(env.contains d)).map declRepr).flatten ++ extra
    let attrsStr := (attrs.map fun a =>
      [' '] ++ attrNameRepr ns a.1.data ++ "=\"".data ++ escAttrChars a.2.data ++ ['"']).flatten
    let tailStr :=
      match tail with
      | some t => escTextChars t.data
      | none => []
    match text, children with
    | none, .nil => ['<'] ++ nameRepr ++ decls ++ attrsStr ++ "/>".data ++ tailStr
    | _, _ =>
      let textStr :=
        match text with
        | some t => escTextChars t.data
        | none => []
      ['<'] ++ nameRepr ++ decls ++ attrsStr ++ ['>'] ++ textStr ++
        serializeChildrenAux ns children ++ "</".data ++ nameRepr ++ ['>'] ++ tailStr

/-- Serialize a child list under the parent's namespace scope. -/
def serializeChildrenAux (env : List (Option String × String)) : XmlChildren → List Char
  | .nil => []
  | .cons c rest => serializeElem env c ++ serializeChildrenAux env rest
end

/-- `lxml.etree.tostring(root, encoding="unicode")`. -/
def tostringUnicode (root : XmlElem) : List Char :=
  serializeElem [] root

/-- The expanded tag of an SVG `foreignObject` element. -/
def foTag : String := "\x7b" ++ svgNamespace ++ "\x7dforeignObject"

/-- The expanded tag of an SVG `text` element. -/
def svgTextTag : String := "\x7b" ++ svgNamespace ++ "\x7dtext"

/-- The expanded tag of an SVG `tspan` element. -/
def svgTspanTag : String := "\x7b" ++ svgNamespace ++ "\x7dtspan"

mutual
/-- Does the subtree rooted at `e` contain a `foreignObject` element
(`root.iter(f"{{{SVG_NAMESPACE}}}foreignObject")` non-empty)? -/
def hasFO (e : XmlElem) : Bool :=
  match e with
  | .mk tag _ _ _ _ children => tag = foTag || hasFOList children

/-- `hasFO` over a child list. -/
def hasFOList : XmlChildren → Bool
  | .nil => false
  | .cons c rest => hasFO c || hasFOList rest
end

/-- Convert a `List` of elements to `XmlChildren`. -/
def xmlChildrenOfList : List XmlElem → XmlChildren
  | [] => .nil
  | e :: rest => .cons e (xmlChildrenOfList rest)

/-- The per-island body of `convert_foreign_object_to_text` after line
extraction: read the island's box (`float` may raise `ValueError`,
propagated as `Except.error`), word-wrap the lines at 95% of the width, and
build the replacement `<text>` element (with `<tspan>` children when more
than one wrapped line results). -/
def buildTextElem (fo : XmlElem) (lines : List String) : Except PyErr XmlElem :=
  match pyFloatOfString (fo.getD "width" "0") with
  | none => .error .valueError
  | some fo_width =>
    match pyFloatOfString (fo.getD "height" "0") with
    | none => .error .valueError
    | some fo_height =>
      match pyFloatOfString (fo.getD "x" "0") with
      | none => .error .valueError
      | some fo_x =>
        match pyFloatOfString (fo.getD "y" "0") with
        | none => .error .valueError
        | some fo_y =>
          let wrap_width :=
            if PyFloat.lt (.finite 0) fo_width then
              PyFloat.mul fo_width (.finite ⟨95, 100⟩)
            else .finite 0
          let wrapped := lines.flatMap fun l => word_wrap_text l wrap_width (.finite 12)
          let center_x := PyFloat.add fo_x (PyFloat.divc fo_width 2)
          let styleStr :=
            "font-family: trebuchet ms, verdana, arial, sans-serif; font-size: " ++
              pyFloatRepr (.finite 12) ++ "px; fill: #333;"
          let baseAttrs := [("x", pyFloatRepr center_x), ("text-anchor", "middle"),
            ("style", styleStr)]
          let line_height := PyFloat.add (.finite 12) (.finite 2)
          let total := PyFloat.mul line_height (.ofNat wrapped.length)
          let start_y :=
            PyFloat.add
              (PyFloat.add fo_y (PyFloat.divc (PyFloat.sub fo_height total) 2))
              (PyFloat.mul line_height (.finite ⟨8, 10⟩))
          if wrapped.length = 1 then
            .ok (.mk svgTextTag
              (baseAttrs ++
                [("y", pyFloatRepr (PyFloat.add fo_y (PyFloat.divc fo_height 2))),
                 ("dominant-baseline", "middle")])
              fo.nsmap (some (wrapped.headD "")) none .nil)
          else
            let tspans := wrapped.enum.map fun iLine =>
              XmlElem.mk svgTspanTag
                [("x", pyFloatRepr center_x),
                 ("y", pyFloatRepr (PyFloat.add start_y
                    (PyFloat.mul (.ofNat iLine.1) line_height)))]
                fo.nsmap (some iLine.2) none .nil
            .ok (.mk svgTextTag baseAttrs fo.nsmap none none (xmlChildrenOfList tspans))

mutual
/-- The side-effect half of the `for fo in foreign_objects` loop.
`foreign_objects = list(root.iter(...))` is materialized before any
replacement, so every `foreignObject` of the original tree — including one
nested inside an island that an earlier iteration already replaced and
detached, and the root itself (whose `getparent()` is `None`) — still has
its box attributes read with `float`, which raises `ValueError` on a
non-numeric value.  A snapshot member's own subtree never changes during the
loop (only ancestors are replaced), so the reads are checked here on the
original tree in document order: for each `foreignObject` with extractable
lines, `buildTextElem` performs exactly the four `float` conversions. -/
def foCheckElem (e : XmlElem) : Except PyErr Unit :=
  match e with
  | .mk tag _ _ _ _ children =>
    if tag = foTag then
      let lines := extract_text_lines_from_element e
      if lines = [] then foCheckChildren children
      else
        match buildTextElem e lines with
        | .error er => .error er
        | .ok _ => foCheckChildren children
    else foCheckChildren children

/-- `foCheckElem` over a child list, in document order. -/
def foCheckChildren : XmlChildren → Except PyErr Unit
  | .nil => .ok ()
  | .cons c rest =>
    match foCheckElem c with
    | .error e => .error e
    | .ok _ => foCheckChildren rest
end

mutual
/-- The visible-tree half of the `for fo in foreign_objects` loop: each
`foreignObject` child with extractable text is replaced in place by the
`<text>` element (losing its tail, as `parent.remove` does); one with no
extractable text is kept (any `foreignObject` nested below it has no
extractable text either); other elements keep their place with their
children transformed.  A replacement inside an island that was itself
replaced happens on a detached subtree and does not appear in the serialized
output, so only the outermost islands with extractable text are replaced
here; the `float`/`ValueError` side effects of those invisible iterations
are raised by `foCheckElem`. -/
def transformChildren : XmlChildren → Except PyErr XmlChildren
  | .nil => .ok .nil
  | .cons c rest =>
    if c.tag = foTag then
      let lines := extract_text_lines_from_element c
      if lines = [] then
        match transformChildren rest with
        | .error e => .error e
        | .ok rest' => .ok (.cons c rest')
      else
        match buildTextElem c lines with
        | .error e => .error e
        | .ok te =>
          match transformChildren rest with
          | .error e => .error e
          | .ok rest' => .ok (.cons te rest')
    else
      match transformElem c with
      | .error e => .error e
      | .ok c' =>
        match transformChildren rest with
        | .error e => .error e
        | .ok rest' => .ok (.cons c' rest')

/-- Transform the children of a non-island element. -/
def transformElem (e : XmlElem) : Except PyErr XmlElem :=
  match e with
  | .mk tag attrs ns text tail children =>
    match transformChildren children with
    | .error e => .error e
    | .ok ch => .ok (.mk tag attrs ns text tail ch)
end

/-- The body of `convert_foreign_object_to_text` (everything inside its
`try`): parse, return the input when the materialized snapshot of
`foreignObject` elements is empty, run the snapshot loop's `float` reads
over the whole original tree (`foCheckElem`, covering the root island and
islands nested inside replaced ones), then build the visible output tree and
re-serialize. -/
def convertBody (data : List Nat) : Except PyErr (List Nat) :=
  match fromstringBytes data with
  | .error e => .error e
  | .ok root =>
    if !hasFO root then .ok data
    else
      match foCheckElem root with
      | .error e => .error e
      | .ok _ =>
        match transformElem root with
        | .error e => .error e
        | .ok root' => .ok (utf8Encode (tostringUnicode root'))

/-- `convert_foreign_object_to_text` from `svg.py`: the body above inside
`try: ... except Exception: return data`. -/
def convert_foreign_object_to_text (data : List Nat) : List Nat :=
  match convertBody data with
  | .ok v => v
  | .error _ => data

/-- Spec model (written from the spec's words, for the C9 refinement): one
step of the greedy packer.  A line always accepts its first word; otherwise a
word joins the current line exactly when
`currentWidth + spaceWidth + nextWordWidth <= maxWidth`. -/
def specWordWrapStep (mw fs sw : PyFloat)
    (st : List String × List String × PyFloat) (word : String) :
    List String × List String × PyFloat :=
  match st with
  | (lines, cur, cw) =>
    let ww := estimate_text_width word fs
    if cur = [] then (lines, [word], ww)
    else if PyFloat.le (PyFloat.add (PyFloat.add cw sw) ww) mw then
      (lines, cur ++ [word], PyFloat.add (PyFloat.add cw sw) ww)
    else (lines ++ [String.intercalate " " cur], [word], ww)

/-- Spec model: flush the pending line after the greedy fold. -/
def specFlush (st : List String × List String × PyFloat) : List String :=
  if st.2.1 = [] then st.1 else st.1 ++ [String.intercalate " " st.2.1]

/-- Spec model (written from the spec's words, for the C9 refinement): return
the text as a single line when the maximum width is non-positive or the whole
text already fits, otherwise greedily pack the whitespace-delimited words. -/
def specWordWrap (text : String) (mw fs : PyFloat) : List String :=
  if PyFloat.le mw (PyFloat.finite 0) then [text]
  else if PyFloat.le (estimate_text_width text fs) mw then [text]
  else if pySplit text = [] then [text]
  else
    specFlush ((pySplit text).foldl
      (specWordWrapStep mw fs (estimate_text_width " " fs))
      ([], [], PyFloat.finite 0))

/-! ## Claims -/

/-- **C1** (Totality / fault containment): each of the two top-level
transforms is a total function returning a value for every input byte
sequence; whenever the modelled body raises internally (`Except.error`,
covering truncated or malformed XML, bad UTF-8, and attribute conversion
errors), the transform returns the original input bytes; otherwise it
returns the body's value.  Concretely, truncated XML bytes and an invalid
UTF-8 byte pass through both transforms unchanged, and a `ValueError` from
the box attributes of a `foreignObject` nested inside a replaced island
(still processed from the materialized `list(root.iter(...))` snapshot)
makes the Converter return its input unchanged. -/
theorem transforms_total_and_fault_contained :
    (∀ (data : List Nat) (e : PyErr), fixBody data = .error e →
      fix_svg_dimensions data = data) ∧
    (∀ (data : List Nat) (e : PyErr), convertBody data = .error e →
      convert_foreign_object_to_text data = data) ∧
    (∀ data : List Nat, fix_svg_dimensions data = data ∨
      fixBody data = .ok (fix_svg_dimensions data)) ∧
    (∀ data : List Nat, convert_foreign_object_to_text data = data ∨
      convertBody data = .ok (convert_foreign_object_to_text data)) ∧
    fix_svg_dimensions (utf8Encode "<svg width=".data) = utf8Encode "<svg width=".data ∧
    convert_foreign_object_to_text (utf8Encode "<svg width=".data) =
      utf8Encode "<svg width=".data ∧
    fix_svg_dimensions [255] = [255] ∧
    convert_foreign_object_to_text [255] = [255] ∧
    convertBody (utf8Encode "<svg xmlns=\"http://www.w3.org/2000/svg\"><foreignObject width=\"10\" height=\"10\"><foreignObject width=\"zz\">Hi</foreignObject></foreignObject></svg>".data) =
      .error .valueError ∧
    convert_foreign_object_to_text (utf8Encode "<svg xmlns=\"http://www.w3.org/2000/svg\"><foreignObject width=\"10\" height=\"10\"><foreignObject width=\"zz\">Hi</foreignObject></foreignObject></svg>".data) =
      utf8Encode "<svg xmlns=\"http://www.w3.org/2000/svg\"><foreignObject width=\"10\" height=\"10\"><foreignObject width=\"zz\">Hi</foreignObject></foreignObject></svg>".data := by
  refine ⟨?_, ?_, ?_, ?_, by decide, by decide, by decide, by decide, by rfl, by decide⟩
  · intro data e h
    unfold fix_svg_dimensions
    rw [h]
  · intro data e h
    unfold convert_foreign_object_to_text
    rw [h]
  · intro data
    unfold fix_svg_dimensions
    cases h : fixBody data with
    | ok v => exact Or.inr rfl
    | error e => exact Or.inl rfl
  · intro data
    unfold convert_foreign_object_to_text
    cases h : convertBody data with
    | ok v => exact Or.inr rfl
    | error e => exact Or.inl rfl

/-- Witness for C1: the containment implications applied at the concrete
invalid input `[255]`, whose body fails with `UnicodeDecodeError` /
`XMLSyntaxError`. -/
theorem transforms_total_and_fault_contained_witness :
    fix_svg_dimensions [255] = [255] ∧ convert_foreign_object_to_text [255] = [255] :=
  ⟨transforms_total_and_fault_contained.1 [255] .unicodeDecodeError (by rfl),
   transforms_total_and_fault_contained.2.1 [255] .xmlSyntaxError (by rfl)⟩

/-- **C3** (`parseViewBox`): splitting on whitespace/comma runs must yield
exactly four fields; when the 3rd and 4th parse as finite floats the result
is their values rounded (half-to-even) to integers; a wrong field count or a
field `float()` rejects (or NaN) yields Unknown for both.  However, the
claim's "for every input string" fails: an infinite numeric field makes the
source raise an uncaught `OverflowError` (it catches only `ValueError`),
shown here on `"0 0 inf 1"`, contradicting the function's own documented
"(None, None) if parsing fails". -/
theorem parse_viewbox_spec :
    (∀ (s : String) (q2 q3 : Frac),
      (reSplitWsComma (pyStripChars s.data)).length = 4 →
      pyFloatOfChars ((reSplitWsComma (pyStripChars s.data)).getD 2 []) =
        some (.finite q2) →
      pyFloatOfChars ((reSplitWsComma (pyStripChars s.data)).getD 3 []) =
        some (.finite q3) →
      parse_viewbox s = .ok (some (roundHalfEven q2), some (roundHalfEven q3))) ∧
    (∀ s : String, (reSplitWsComma (pyStripChars s.data)).length ≠ 4 →
      parse_viewbox s = .ok (none, none)) ∧
    (∀ s : String,
      (reSplitWsComma (pyStripChars s.data)).length = 4 →
      (pyFloatOfChars ((reSplitWsComma (pyStripChars s.data)).getD 2 []) = none ∨
       pyFloatOfChars ((reSplitWsComma (pyStripChars s.data)).getD 2 []) = some .nan) →
      parse_viewbox s = .ok (none, none)) ∧
    (∀ (s : String) (q2 : Frac),
      (reSplitWsComma (pyStripChars s.data)).length = 4 →
      pyFloatOfChars ((reSplitWsComma (pyStripChars s.data)).getD 2 []) =
        some (.finite q2) →
      (pyFloatOfChars ((reSplitWsComma (pyStripChars s.data)).getD 3 []) = none ∨
       pyFloatOfChars ((reSplitWsComma (pyStripChars s.data)).getD 3 []) = some .nan) →
      parse_viewbox s = .ok (none, none)) ∧
    parse_viewbox "0 0 120 80" = .ok (some 120, some 80) ∧
    parse_viewbox "0,0,300 150" = .ok (some 300, some 150) ∧
    parse_viewbox "0 0 120" = .ok (none, none) ∧
    parse_viewbox "a b c d" = .ok (none, none) ∧
    parse_viewbox "0 0 inf 1" = .error .overflowError := by
  have hemp : (reSplitWsComma (pyStripChars "".data)).length = 1 := by decide
  refine ⟨?_, ?_, ?_, ?_, by decide, by decide, by decide, by decide, by decide⟩
  · intro s q2 q3 h4 h2 h3
    by_cases hs : s = ""
    · rw [hs] at h4; simp [hemp] at h4
    · simp only [parse_viewbox, if_neg hs]
      rw [if_neg (not_not_intro h4)]
      simp only [h2, h3, pyRoundF]
  · intro s h4
    by_cases hs : s = ""
    · simp [parse_viewbox, hs]
    · simp only [parse_viewbox, if_neg hs]
      rw [if_pos h4]
  · intro s h4 h2
    by_cases hs : s = ""
    · rw [hs] at h4; simp [hemp] at h4
    · rcases h2 with h2 | h2 <;>
        (simp only [parse_viewbox, if_neg hs]
         rw [if_neg (not_not_intro h4)]
         simp only [h2, pyRoundF])
  · intro s q2 h4 h2 h3
    by_cases hs : s = ""
    · rw [hs] at h4; simp [hemp] at h4
    · rcases h3 with h3 | h3 <;>
        (simp only [parse_viewbox, if_neg hs]
         rw [if_neg (not_not_intro h4)]
         simp only [h2, h3, pyRoundF])

/-- Witness for C3: the four-finite-fields case applied at the concrete
viewBox `"0 0 120 80"`. -/
theorem parse_viewbox_spec_witness :
    parse_viewbox "0 0 120 80" =
      .ok (some (roundHalfEven ⟨120, 1⟩), some (roundHalfEven ⟨80, 1⟩)) :=
  parse_viewbox_spec.1 "0 0 120 80" ⟨120, 1⟩ ⟨80, 1⟩ (by decide) (by decide) (by decide)

/-- A list is unchanged by `dropWhile` when its first element fails the
predicate. -/
theorem dropWhile_eq_self_of_head {p : Char → Bool} {cs : List Char}
    (h : ∀ c ∈ cs.take 1, p c = false) : cs.dropWhile p = cs := by
  cases cs with
  | nil => rfl
  | cons c rest =>
    have := h c (by simp)
    simp [List.dropWhile, this]

/-- `str.strip()` is the identity on a string with no whitespace characters. -/
theorem pyStripChars_eq_self {cs : List Char}
    (h : ∀ c ∈ cs, isPySpace c = false) : pyStripChars cs = cs := by
  unfold pyStripChars
  rw [dropWhile_eq_self_of_head fun c hc => h c (List.mem_of_mem_take hc)]
  rw [dropWhile_eq_self_of_head fun c hc =>
    h c (List.mem_reverse.mp (List.mem_of_mem_take hc))]
  exact List.reverse_reverse cs

/-- `digitRun` consumes exactly a leading block of digits when what follows
does not start with a digit. -/
theorem digitRun_append {ds rest : List Char}
    (hds : ∀ c ∈ ds, c.isDigit = true)
    (hrest : ∀ c ∈ rest.take 1, c.isDigit = false) :
    digitRun (ds ++ rest) = (ds, rest) := by
  induction ds with
  | nil =>
    cases rest with
    | nil => rfl
    | cons c r =>
      have := hrest c (by simp)
      simp [digitRun, this]
  | cons d ds ih =>
    have hd := hds d (by simp)
    have ih' := ih fun c hc => hds c (by simp [hc])
    simp [digitRun, hd, List.cons_append, ih']

/-- The mantissa value denoted by an optional sign, integer digits, and
optional fractional digits, as the source's `float(num_str)` computes it. -/
def mantVal (sgn ip : List Char) (fp : Option (List Char)) : Frac :=
  if sgn = ['-'] then (decimalValue ip (fp.getD [])).neg
  else decimalValue ip (fp.getD [])

/-- The rendered fractional part: a dot plus the digits when present. -/
def fpRender : Option (List Char) → List Char
  | some f => '.' :: f
  | none => []

/-- The rendered text of a mantissa (what the length regex captures as its
first group): sign, integer digits, and a dot plus fractional digits when
the dot is present. -/
def renderMant (sgn ip : List Char) (fp : Option (List Char)) : List Char :=
  sgn ++ ip ++ fpRender fp

/-- Well-formedness of a mantissa under the regex alternation
`\d+\.?\d*|\.\d+`: a valid sign, digit lists, and digits on the side the
alternation requires. -/
def MantOK (sgn ip : List Char) (fp : Option (List Char)) : Prop :=
  (sgn = [] ∨ sgn = ['+'] ∨ sgn = ['-']) ∧
  (∀ c ∈ ip, c.isDigit = true) ∧
  (∀ f, fp = some f → ∀ c ∈ f, c.isDigit = true) ∧
  (∀ f, fp = some f → (ip ≠ [] ∨ f ≠ [])) ∧
  (fp = none → ip ≠ [])

/-- A unit suffix is inert: no character is a digit, a dot, or whitespace
(true of every recognized unit token in any capitalization). -/
def UnitOK (u : List Char) : Prop :=
  ∀ c ∈ u, c.isDigit = false ∧ c ≠ '.' ∧ isPySpace c = false

/-- `parseLengthBody` consumes exactly the unsigned rendered mantissa. -/
theorem parseLengthBody_render {ip : List Char} {fp : Option (List Char)}
    {u : List Char} (neg : Bool)
    (hip : ∀ c ∈ ip, c.isDigit = true)
    (hfp1 : ∀ f, fp = some f → ∀ c ∈ f, c.isDigit = true)
    (hfp2 : ∀ f, fp = some f → (ip ≠ [] ∨ f ≠ []))
    (hfp3 : fp = none → ip ≠ [])
    (hu : UnitOK u) :
    parseLengthBody neg ((ip ++ fpRender fp) ++ u) =
      some ((if neg then (decimalValue ip (fp.getD [])).neg
             else decimalValue ip (fp.getD [])), u) := by
  have huhead : ∀ c ∈ u.take 1, c.isDigit = false :=
    fun c hc => (hu c (List.mem_of_mem_take hc)).1
  cases fp with
  | none =>
    have hipne : ip ≠ [] := hfp3 rfl
    cases ip with
    | nil => exact absurd rfl hipne
    | cons ic ir =>
      have hrun : digitRun ((ic :: ir) ++ u) = (ic :: ir, u) :=
        digitRun_append hip huhead
      simp only [fpRender, List.append_nil]
      unfold parseLengthBody
      rw [hrun]
      cases u with
      | nil => rfl
      | cons uc ur =>
        have huc : uc ≠ '.' := (hu uc (by simp)).2.1
        simp [huc]
  | some f =>
    have hf : ∀ c ∈ f, c.isDigit = true := hfp1 f rfl
    have hne := hfp2 f rfl
    cases ip with
    | nil =>
      have hfne : f ≠ [] := by
        rcases hne with h | h
        · exact absurd rfl h
        · exact h
      cases f with
      | nil => exact absurd rfl hfne
      | cons fc fr =>
        have hrun : digitRun ((fc :: fr) ++ u) = (fc :: fr, u) :=
          digitRun_append hf huhead
        simp only [fpRender, List.nil_append, List.cons_append]
        unfold parseLengthBody
        have hdot : digitRun ('.' :: (fc :: (fr ++ u))) = ([], '.' :: (fc :: (fr ++ u))) := by
          simp [digitRun]
        rw [hdot]
        simp only [List.cons_append] at hrun
        simp [hrun]
    | cons ic ir =>
      have hrest : ∀ c ∈ ('.' :: f ++ u).take 1, c.isDigit = false := by
        intro c hc
        simp at hc
        rw [hc]
        decide
      have hrun : digitRun ((ic :: ir) ++ ('.' :: f ++ u)) = (ic :: ir, '.' :: f ++ u) :=
        digitRun_append hip hrest
      have hrun2 : digitRun (f ++ u) = (f, u) := digitRun_append hf huhead
      simp only [fpRender, List.cons_append, List.append_assoc]
      unfold parseLengthBody
      simp only [List.cons_append] at hrun
      rw [hrun]
      simp only [List.cons_append] at hrun2
      simp [hrun2]

/-- The number part of the length regex consumes exactly the rendered
mantissa, leaving the unit suffix. -/
theorem parseLengthNumber_render {sgn ip : List Char} {fp : Option (List Char)}
    {u : List Char} (hm : MantOK sgn ip fp) (hu : UnitOK u) :
    parseLengthNumber (renderMant sgn ip fp ++ u) = some (mantVal sgn ip fp, u) := by
  obtain ⟨hs, hip, hfp1, hfp2, hfp3⟩ := hm
  have hbody := fun neg =>
    @parseLengthBody_render ip fp u neg hip hfp1 hfp2 hfp3 hu
  have hhead : ∀ c ∈ ((ip ++ fpRender fp) ++ u).take 1,
      c.isDigit = true ∨ c = '.' := by
    cases fp with
    | none =>
      have hipne : ip ≠ [] := hfp3 rfl
      cases ip with
      | nil => exact absurd rfl hipne
      | cons ic ir =>
        intro c hc
        simp [fpRender] at hc
        exact Or.inl (by rw [hc]; exact hip ic (by simp))
    | some f =>
      cases ip with
      | nil =>
        intro c hc
        simp [fpRender] at hc
        exact Or.inr hc
      | cons ic ir =>
        intro c hc
        simp at hc
        exact Or.inl (by rw [hc]; exact hip ic (by simp))
  rcases hs with rfl | rfl | rfl
  · simp only [renderMant, List.nil_append]
    have hres := hbody false
    generalize hX : (ip ++ fpRender fp) ++ u = X
    rw [hX] at hres
    rw [hX] at hhead
    cases X with
    | nil => simpa [parseLengthNumber, mantVal] using hres
    | cons xc xr =>
      have hxc := hhead xc (by simp)
      have hxc1 : xc ≠ '+' := by
        rcases hxc with h | h
        · intro hceq; rw [hceq] at h; exact absurd h (by decide)
        · intro hceq; rw [hceq] at h; exact absurd h (by decide)
      have hxc2 : xc ≠ '-' := by
        rcases hxc with h | h
        · intro hceq; rw [hceq] at h; exact absurd h (by decide)
        · intro hceq; rw [hceq] at h; exact absurd h (by decide)
      rw [show parseLengthNumber (xc :: xr) = parseLengthBody false (xc :: xr) by
        unfold parseLengthNumber
        split
        · next h => injection h with h1 _; exact absurd h1 hxc1
        · next h => injection h with h1 _; exact absurd h1 hxc2
        · rfl]
      simpa [mantVal] using hres
  · simp only [renderMant, List.cons_append, List.nil_append]
    rw [show ∀ r, parseLengthNumber ('+' :: r) = parseLengthBody false r from fun r => rfl]
    have hres := hbody false
    simp only [List.cons_append, List.nil_append] at hres ⊢
    simpa [mantVal] using hres
  · simp only [renderMant, List.cons_append, List.nil_append]
    rw [show ∀ r, parseLengthNumber ('-' :: r) = parseLengthBody true r from fun r => rfl]
    have hres := hbody true
    simp only [List.cons_append, List.nil_append] at hres ⊢
    simpa [mantVal] using hres

/-- A digit character is not Python whitespace. -/
theorem isPySpace_eq_false_of_isDigit {c : Char} (h : c.isDigit = true) :
    isPySpace c = false := by
  simp only [isPySpace, Bool.or_eq_false_iff, decide_eq_false_iff_not]
  repeat' apply And.intro
  all_goals (rintro rfl; exact absurd h (by decide))

/-- No character of a well-formed length token (mantissa plus inert unit) is
whitespace. -/
theorem renderMant_no_space {sgn ip : List Char} {fp : Option (List Char)}
    {u : List Char} (hm : MantOK sgn ip fp) (hu : UnitOK u) :
    ∀ c ∈ renderMant sgn ip fp ++ u, isPySpace c = false := by
  obtain ⟨hs, hip, hfp1, _, _⟩ := hm
  intro c hc
  simp only [renderMant, List.append_assoc, List.mem_append] at hc
  rcases hc with hc | hc | hc
  · rcases hs with rfl | rfl | rfl
    · simp at hc
    · simp at hc; rw [hc]; decide
    · simp at hc; rw [hc]; decide
  · exact isPySpace_eq_false_of_isDigit (hip c hc)
  · rcases hc with hc | hc
    · cases fp with
      | none => simp [fpRender] at hc
      | some f =>
        simp [fpRender] at hc
        rcases hc with rfl | hc
        · decide
        · exact isPySpace_eq_false_of_isDigit (hfp1 f rfl c hc)
    · exact (hu c hc).2.2

/-- A well-formed length token is non-empty. -/
theorem renderMant_ne_nil {sgn ip : List Char} {fp : Option (List Char)}
    {u : List Char} (hm : MantOK sgn ip fp) :
    renderMant sgn ip fp ++ u ≠ [] := by
  obtain ⟨_, _, _, _, hfp3⟩ := hm
  cases fp with
  | none =>
    have hipne := hfp3 rfl
    cases ip with
    | nil => exact absurd rfl hipne
    | cons ic ir => simp [renderMant]
  | some f => simp [renderMant, fpRender]

/-- **C6** (`parseLength`): for every length token made of an optional sign,
a decimal mantissa matching the regex alternation, and an inert unit suffix
whose lower-casing is a recognized unit, `_parse_svg_length` returns the
mantissa value times the unit's documented pixel factor (1 for none/px,
96/72 for pt, 96 for in, 9600/254 for cm, 960/254 for mm, 96/6 for pc, 16
for em, 8 for ex), rounded half-to-even; a percent suffix yields Unknown;
and conversely any accepted input decomposes this way, so every other token
is rejected as Unknown. -/
theorem parse_svg_length_spec :
    (∀ (sgn ip : List Char) (fp : Option (List Char)) (u : List Char) (f : Frac),
      MantOK sgn ip fp → UnitOK u →
      unitFactor (u.map Char.toLower) = some (some f) →
      parse_svg_length ⟨renderMant sgn ip fp ++ u⟩ =
        some (roundHalfEven ((mantVal sgn ip fp).mul f))) ∧
    (∀ (sgn ip : List Char) (fp : Option (List Char)),
      MantOK sgn ip fp →
      parse_svg_length ⟨renderMant sgn ip fp ++ ['%']⟩ = none) ∧
    (∀ (s : String) (n : Int), parse_svg_length s = some n →
      ∃ (q : Frac) (rest : List Char) (f : Frac),
        parseLengthNumber (pyStripChars s.data) = some (q, rest) ∧
        unitFactor (rest.map Char.toLower) = some (some f) ∧
        n = roundHalfEven (q.mul f)) ∧
    unitFactor "pt".data = some (some ⟨96, 72⟩) ∧
    unitFactor "in".data = some (some ⟨96, 1⟩) ∧
    unitFactor "cm".data = some (some ⟨9600, 254⟩) ∧
    unitFactor "mm".data = some (some ⟨960, 254⟩) ∧
    unitFactor "pc".data = some (some ⟨96, 6⟩) ∧
    unitFactor "em".data = some (some ⟨16, 1⟩) ∧
    unitFactor "ex".data = some (some ⟨8, 1⟩) ∧
    unitFactor "px".data = some (some ⟨1, 1⟩) ∧
    unitFactor ([] : List Char) = some (some ⟨1, 1⟩) ∧
    parse_svg_length "1in" = some 96 ∧
    parse_svg_length "72pt" = some 96 ∧
    parse_svg_length "1cm" = some 38 ∧
    parse_svg_length "10em" = some 160 ∧
    parse_svg_length "2ex" = some 16 ∧
    parse_svg_length ".5PX" = some 0 ∧
    parse_svg_length "100%" = none ∧
    parse_svg_length "abc" = none := by
  have hmain : ∀ (sgn ip : List Char) (fp : Option (List Char)) (u : List Char),
      MantOK sgn ip fp → UnitOK u →
      parse_svg_length ⟨renderMant sgn ip fp ++ u⟩ =
        (match unitFactor (u.map Char.toLower) with
         | none => none
         | some none => none
         | some (some f) => some (roundHalfEven ((mantVal sgn ip fp).mul f))) := by
    intro sgn ip fp u hm hu
    have hne : (⟨renderMant sgn ip fp ++ u⟩ : String) ≠ "" := by
      intro h
      exact renderMant_ne_nil hm (by
        have := congrArg String.data h
        simpa using this)
    unfold parse_svg_length
    rw [if_neg hne]
    have hdata : (⟨renderMant sgn ip fp ++ u⟩ : String).data = renderMant sgn ip fp ++ u := rfl
    rw [hdata, pyStripChars_eq_self (renderMant_no_space hm hu)]
    simp only [parseLengthNumber_render hm hu]
  refine ⟨?_, ?_, ?_, by decide⟩
  · intro sgn ip fp u f hm hu huf
    rw [hmain sgn ip fp u hm hu, huf]
  · intro sgn ip fp hm
    have hpct : UnitOK ['%'] := by unfold UnitOK; decide
    rw [hmain sgn ip fp ['%'] hm hpct]
    have hu' : unitFactor (['%'].map Char.toLower) = some none := by decide
    rw [hu']
  · intro s n h
    unfold parse_svg_length at h
    by_cases hs : s = ""
    · rw [if_pos hs] at h; cases h
    · rw [if_neg hs] at h
      cases hp : parseLengthNumber (pyStripChars s.data) with
      | none => simp [hp] at h
      | some qr =>
        obtain ⟨q, rest⟩ := qr
        simp only [hp] at h
        cases hf : unitFactor (rest.map Char.toLower) with
        | none => simp [hf] at h
        | some fo =>
          cases fo with
          | none => simp [hf] at h
          | some f =>
            simp only [hf] at h
            injection h with h
            exact ⟨q, rest, f, rfl, hf, h.symm⟩

/-- Witness for C6: the conversion case applied at `"72pt"`
(sign absent, mantissa `72`, unit `pt`), and the percent case at `"100%"`. -/
theorem parse_svg_length_spec_witness :
    parse_svg_length ⟨renderMant [] ['7', '2'] none ++ "pt".data⟩ =
      some (roundHalfEven ((mantVal [] ['7', '2'] none).mul ⟨96, 72⟩)) ∧
    parse_svg_length ⟨renderMant [] ['1', '0', '0'] none ++ ['%']⟩ = none := by
  have hm72 : MantOK [] ['7', '2'] none := by
    refine ⟨Or.inl rfl, by decide, ?_, ?_, ?_⟩
    · intro f h
      cases h
    · intro f h
      cases h
    · intro h
      decide
  have hm100 : MantOK [] ['1', '0', '0'] none := by
    refine ⟨Or.inl rfl, by decide, ?_, ?_, ?_⟩
    · intro f h
      cases h
    · intro f h
      cases h
    · intro h
      decide
  constructor
  · exact parse_svg_length_spec.1 [] ['7', '2'] none "pt".data ⟨96, 72⟩ hm72
      (by unfold UnitOK; decide) (by decide)
  · exact parse_svg_length_spec.2.1 [] ['1', '0', '0'] none hm100

/-- `find?` on a cons whose head satisfies the predicate. -/
theorem find?_cons_true {α : Type} (p : α → Bool) (a : α) (l : List α)
    (h : p a = true) : (a :: l).find? p = some a := by
  simp [List.find?_cons, h]

/-- `find?` on a cons whose head fails the predicate. -/
theorem find?_cons_false {α : Type} (p : α → Bool) (a : α) (l : List α)
    (h : p a = false) : (a :: l).find? p = l.find? p := by
  simp [List.find?_cons, h]

/-- `keyIs` computes key equality. -/
theorem keyIs_eq_false {m : String} {a : String × String} (h : ¬(a.1 = m)) :
    keyIs m a = false := by
  simp [keyIs, h]

/-- `find?` by key is unchanged by an in-place update of a different key. -/
theorem find?_map_update (attrs : List (String × String)) (n v m : String)
    (h : m ≠ n) :
    (attrs.map fun a => if a.1 = n then (n, v) else a).find? (keyIs m) =
      attrs.find? (keyIs m) := by
  induction attrs with
  | nil => rfl
  | cons a rest ih =>
    by_cases ha : a.1 = n
    · have h1 : keyIs m (n, v) = false := keyIs_eq_false (fun hc => h hc.symm)
      have h2 : keyIs m a = false := keyIs_eq_false (by rw [ha]; exact fun hc => h hc.symm)
      rw [List.map_cons, if_pos ha, find?_cons_false _ _ _ h1,
        find?_cons_false _ _ _ h2, ih]
    · rw [List.map_cons, if_neg ha]
      cases hd : keyIs m a with
      | true => rw [find?_cons_true _ _ _ hd, find?_cons_true _ _ _ hd]
      | false => rw [find?_cons_false _ _ _ hd, find?_cons_false _ _ _ hd, ih]

/-- `find?` by key is unchanged by appending an entry with a different key. -/
theorem find?_append_single (attrs : List (String × String)) (n v m : String)
    (h : m ≠ n) :
    (attrs ++ [(n, v)]).find? (keyIs m) = attrs.find? (keyIs m) := by
  induction attrs with
  | nil =>
    have h1 : keyIs m (n, v) = false := keyIs_eq_false (fun hc => h hc.symm)
    simp only [List.nil_append, find?_cons_false _ _ _ h1, List.find?_nil]
  | cons a rest ih =>
    rw [List.cons_append]
    cases hd : keyIs m a with
    | true => rw [find?_cons_true _ _ _ hd, find?_cons_true _ _ _ hd]
    | false => rw [find?_cons_false _ _ _ hd, find?_cons_false _ _ _ hd, ih]

/-- Setting one attribute leaves the lookup of a different name unchanged. -/
theorem get_setAttr_ne (e : XmlElem) (n v m : String) (h : m ≠ n) :
    (e.setAttr n v).get m = e.get m := by
  cases e with
  | mk tag attrs ns text tail children =>
    simp only [XmlElem.setAttr, XmlElem.get, XmlElem.attrs]
    by_cases hex : attrs.any (fun a => a.1 = n)
    · rw [if_pos hex, find?_map_update attrs n v m h]
    · rw [if_neg hex, find?_append_single attrs n v m h]

/-- Setting an attribute makes its lookup return the new value. -/
theorem get_setAttr_same (e : XmlElem) (n v : String) :
    (e.setAttr n v).get n = some v := by
  cases e with
  | mk tag attrs ns text tail children =>
    simp only [XmlElem.setAttr, XmlElem.get, XmlElem.attrs]
    by_cases hex : attrs.any (fun a => a.1 = n)
    · rw [if_pos hex]
      induction attrs with
      | nil => simp at hex
      | cons a rest ih =>
        by_cases ha : a.1 = n
        · rw [List.map_cons, if_pos ha, find?_cons_true _ _ _ (by simp [keyIs])]
          rfl
        · have hex' : rest.any (fun a => a.1 = n) = true := by
            simp only [List.any_cons] at hex
            rcases Bool.or_eq_true_iff.mp hex with hx | hx
            · exact absurd (of_decide_eq_true hx) ha
            · exact hx
          rw [List.map_cons, if_neg ha, find?_cons_false _ _ _ (keyIs_eq_false ha)]
          exact ih hex'
    · rw [if_neg hex]
      induction attrs with
      | nil => simp [List.find?, keyIs]
      | cons a rest ih =>
        have ha : ¬(a.1 = n) := by
          intro hc
          exact hex (by simp [List.any_cons, hc])
        rw [List.cons_append, find?_cons_false _ _ _ (keyIs_eq_false ha)]
        exact ih (by
          intro hc
          exact hex (by
            simp only [List.any_cons, Bool.or_eq_true_iff]
            exact Or.inr hc))

/-- Deleting one attribute leaves the lookup of a different name unchanged. -/
theorem get_delAttr_ne (e : XmlElem) (n m : String) (h : m ≠ n) :
    (e.delAttr n).get m = e.get m := by
  cases e with
  | mk tag attrs ns text tail children =>
    simp only [XmlElem.delAttr, XmlElem.get, XmlElem.attrs]
    congr 1
    induction attrs with
    | nil => rfl
    | cons a rest ih =>
      by_cases ha : a.1 = n
      · have hfalse : ¬((!decide (a.1 = n)) = true) := by simp [ha]
        have h2 : keyIs m a = false :=
          keyIs_eq_false (by rw [ha]; exact fun hc => h hc.symm)
        rw [List.filter_cons, if_neg hfalse, find?_cons_false _ _ _ h2, ih]
      · have htrue : (!decide (a.1 = n)) = true := by simp [ha]
        rw [List.filter_cons, if_pos htrue]
        cases hd : keyIs m a with
        | true => rw [find?_cons_true _ _ _ hd, find?_cons_true _ _ _ hd]
        | false => rw [find?_cons_false _ _ _ hd, find?_cons_false _ _ _ hd, ih]

/-- The style step does not change attributes other than `style`. -/
theorem get_scrubStyleAttr_ne (r : XmlElem) (m : String) (h : m ≠ "style") :
    (scrubStyleAttr r).get m = r.get m := by
  unfold scrubStyleAttr
  cases hst : r.get "style" with
  | none => rfl
  | some st =>
    dsimp only
    by_cases hse : st ≠ ""
    · rw [if_pos hse]
      cases hscrub : scrubStyle st with
      | some st2 => exact get_setAttr_ne r "style" st2 m h
      | none => exact get_delAttr_ne r "style" m h
    · rw [if_neg hse]

/-- The height step does not change attributes other than `height`. -/
theorem get_setHeightAttr_ne (r : XmlElem) (vbh : Int) (m : String)
    (h : m ≠ "height") :
    (setHeightAttr r vbh).get m = r.get m := by
  unfold setHeightAttr
  by_cases hcond : r.get "height" = none ∨ r.get "height" = some "100%"
  · rw [if_pos (by simpa using hcond)]
    exact get_setAttr_ne r "height" _ m h
  · rw [if_neg (by simpa using hcond)]

/-- After the Normalizer's attribute rewriting, the width attribute is the
decimal rendering of the resolved viewBox width. -/
theorem normalizeRootAttrs_width (root : XmlElem) (vbw vbh : Int) :
    (normalizeRootAttrs root vbw vbh).get "width" = some ⟨intToString vbw⟩ := by
  unfold normalizeRootAttrs
  rw [get_scrubStyleAttr_ne _ _ (by decide), get_setHeightAttr_ne _ _ _ (by decide),
    get_setAttr_same]

/-- **C5** (needs-fix test of the Dimension Normalizer): when the parsed root
is an `svg` element whose width attribute is present and parses as a numeric
length, `fix_svg_dimensions` returns its input unchanged; when the width
attribute does not parse as a length (in particular when it is the literal
`"100%"`), and the viewBox resolves and the opening tag is found, it rewrites
the document by substituting the re-serialized root tag, whose width
attribute is the resolved viewBox width. -/
theorem fix_svg_dimensions_needs_fix_test :
    (∀ (data : List Nat) (text : List Char) (root : XmlElem) (w : String) (n : Int),
      utf8Decode data = some text →
      parseDocumentChars text = .ok root →
      (root.tag = svgNsTag ∨ root.tag = "svg") →
      root.get "width" = some w →
      parse_svg_length w = some n →
      fix_svg_dimensions data = data) ∧
    (∀ (data : List Nat) (text : List Char) (root : XmlElem) (w : String)
      (vb : String) (vbw vbh : Int) (pre tag post : List Char),
      utf8Decode data = some text →
      parseDocumentChars text = .ok root →
      (root.tag = svgNsTag ∨ root.tag = "svg") →
      root.get "width" = some w →
      parse_svg_length w = none →
      root.get "viewBox" = some vb →
      vb ≠ "" →
      parse_viewbox vb = .ok (some vbw, some vbh) →
      svgSearch text = some (pre, tag, post) →
      fix_svg_dimensions data =
        utf8Encode (replaceFirst tag
          (serialize_svg_opening_tag (normalizeRootAttrs root vbw vbh)) text) ∧
      (normalizeRootAttrs root vbw vbh).get "width" = some ⟨intToString vbw⟩) ∧
    (∀ (data : List Nat) (text : List Char) (root : XmlElem)
      (vb : String) (vbw vbh : Int) (pre tag post : List Char),
      utf8Decode data = some text →
      parseDocumentChars text = .ok root →
      (root.tag = svgNsTag ∨ root.tag = "svg") →
      root.get "width" = some "100%" →
      root.get "viewBox" = some vb →
      vb ≠ "" →
      parse_viewbox vb = .ok (some vbw, some vbh) →
      svgSearch text = some (pre, tag, post) →
      fix_svg_dimensions data =
        utf8Encode (replaceFirst tag
          (serialize_svg_opening_tag (normalizeRootAttrs root vbw vbh)) text)) := by
  have htag : ∀ root : XmlElem, (root.tag = svgNsTag ∨ root.tag = "svg") →
      (!(decide (root.tag = svgNsTag) || decide (root.tag = "svg"))) = false := by
    intro root h
    rcases h with h | h <;> simp [h]
  refine ⟨?_, ?_, ?_⟩
  · intro data text root w n h1 h2 h3 h4 h5
    have hwp : w ≠ "100%" := by
      intro hc
      rw [hc] at h5
      have : parse_svg_length "100%" = none := by decide
      rw [this] at h5
      cases h5
    unfold fix_svg_dimensions fixBody
    simp only [h1, h2]
    simp only [htag root h3, Bool.false_eq_true, if_false, h4]
    have hnum : (decide (w ≠ "100%") && (parse_svg_length w).isSome) = true := by
      simp [hwp, h5]
    simp only [hnum, if_true]
  · intro data text root w vb vbw vbh pre tag post h1 h2 h3 h4 h5 h6 h7 h8 h9
    constructor
    · unfold fix_svg_dimensions fixBody
      simp only [h1, h2]
      simp only [htag root h3, Bool.false_eq_true, if_false, h4]
      have hnum : (decide (w ≠ "100%") && (parse_svg_length w).isSome) = false := by
        simp [h5]
      simp only [hnum, Bool.false_eq_true, if_false, h6]
      rw [if_neg (by simpa using h7)]
      simp only [h8, h9]
    · exact normalizeRootAttrs_width root vbw vbh
  · intro data text root vb vbw vbh pre tag post h1 h2 h3 h4 h5 h6 h7 h8
    unfold fix_svg_dimensions fixBody
    simp only [h1, h2]
    simp only [htag root h3, Bool.false_eq_true, if_false, h4]
    have hnum : (decide (("100%" : String) ≠ "100%") && (parse_svg_length "100%").isSome) = false := by
      simp
    simp only [hnum, Bool.false_eq_true, if_false, h5]
    rw [if_neg (by simpa using h6)]
    simp only [h7, h8]

/-- Witness for C5: the no-op case on a document with numeric width
`"50"`, and the rewrite case on a document with width `"100%"`. -/
theorem fix_svg_dimensions_needs_fix_test_witness :
    fix_svg_dimensions (utf8Encode "<svg width=\"50\" viewBox=\"0 0 3 2\"></svg>".data) =
      utf8Encode "<svg width=\"50\" viewBox=\"0 0 3 2\"></svg>".data ∧
    fix_svg_dimensions (utf8Encode "<svg width=\"100%\" viewBox=\"0 0 3 2\"></svg>".data) =
      utf8Encode (replaceFirst "<svg width=\"100%\" viewBox=\"0 0 3 2\">".data
        (serialize_svg_opening_tag (normalizeRootAttrs
          (.mk "svg" [("width", "100%"), ("viewBox", "0 0 3 2")] [] none none .nil) 3 2))
        "<svg width=\"100%\" viewBox=\"0 0 3 2\"></svg>".data) := by
  constructor
  · exact fix_svg_dimensions_needs_fix_test.1
      (utf8Encode "<svg width=\"50\" viewBox=\"0 0 3 2\"></svg>".data)
      "<svg width=\"50\" viewBox=\"0 0 3 2\"></svg>".data
      (.mk "svg" [("width", "50"), ("viewBox", "0 0 3 2")] [] none none .nil)
      "50" 50 (by rfl) (by rfl) (Or.inr rfl) (by rfl) (by rfl)
  · exact (fix_svg_dimensions_needs_fix_test.2.2
      (utf8Encode "<svg width=\"100%\" viewBox=\"0 0 3 2\"></svg>".data)
      "<svg width=\"100%\" viewBox=\"0 0 3 2\"></svg>".data
      (.mk "svg" [("width", "100%"), ("viewBox", "0 0 3 2")] [] none none .nil)
      "0 0 3 2" 3 2 [] "<svg width=\"100%\" viewBox=\"0 0 3 2\">".data "</svg>".data
      (by rfl) (by rfl) (Or.inr rfl) (by rfl) (by rfl) (by decide) (by rfl) (by rfl))

/-- A word is good when it is non-empty and contains no whitespace. -/
def GoodWord (w : List Char) : Prop :=
  w ≠ [] ∧ ∀ c ∈ w, isPySpace c = false

/-- `splitPKeep` never returns an empty list. -/
theorem splitPKeep_ne_nil (p : Char → Bool) (cs : List Char) :
    splitPKeep p cs ≠ [] := by
  cases cs with
  | nil => simp [splitPKeep]
  | cons c rest =>
    unfold splitPKeep
    cases h : splitPKeep p rest with
    | nil => simp
    | cons w ws =>
      by_cases hc : p c = true
      · simp [hc]
      · simp [hc]

/-- Prepending separator-free characters extends the first piece. -/
theorem splitPKeep_append_free (p : Char → Bool) (w cs : List Char)
    (hw : ∀ c ∈ w, p c = false) :
    splitPKeep p (w ++ cs) =
      match splitPKeep p cs with
      | [] => [w]
      | x :: xs => (w ++ x) :: xs := by
  induction w with
  | nil =>
    simp only [List.nil_append]
    cases h : splitPKeep p cs with
    | nil => exact absurd h (splitPKeep_ne_nil p cs)
    | cons x xs => simp
  | cons c wrest ih =>
    have hc : p c = false := hw c (by simp)
    have ih' := ih fun d hd => hw d (by simp [hd])
    simp only [List.cons_append]
    have hstep : splitPKeep p (c :: (wrest ++ cs)) =
        match splitPKeep p (wrest ++ cs) with
        | [] => [[]]
        | w2 :: ws => if p c = true then [] :: w2 :: ws else (c :: w2) :: ws := rfl
    rw [hstep, ih']
    cases h : splitPKeep p cs with
    | nil => exact absurd h (splitPKeep_ne_nil p cs)
    | cons x xs => simp [hc]

/-- Splitting at a leading separator emits an empty piece. -/
theorem splitPKeep_cons_sep (p : Char → Bool) (c : Char) (cs : List Char)
    (hc : p c = true) :
    splitPKeep p (c :: cs) = [] :: splitPKeep p cs := by
  have hstep : splitPKeep p (c :: cs) =
      match splitPKeep p cs with
      | [] => [[]]
      | w2 :: ws => if p c = true then [] :: w2 :: ws else (c :: w2) :: ws := rfl
  rw [hstep]
  cases h : splitPKeep p cs with
  | nil => exact absurd h (splitPKeep_ne_nil p cs)
  | cons x xs => simp [hc]

/-- Unfolding lemma: `intercalate` over a single list. -/
theorem intercalate_one {α : Type} (sep : List α) (a : List α) :
    List.intercalate sep [a] = a := by
  simp [List.intercalate, List.intersperse]

/-- Unfolding lemma: `intercalate` over at least two lists. -/
theorem intercalate_two {α : Type} (sep : List α) (a b : List α)
    (rest : List (List α)) :
    List.intercalate sep (a :: b :: rest) = a ++ sep ++ List.intercalate sep (b :: rest) := by
  simp [List.intercalate, List.intersperse, List.flatten]

/-- Splitting the space-joined rendering of good words recovers the words. -/
theorem pySplitChars_intercalate (ws : List (List Char))
    (h : ∀ w ∈ ws, GoodWord w) :
    pySplitChars (List.intercalate [' '] ws) = ws := by
  induction ws with
  | nil => rfl
  | cons w rest ih =>
    have hw : GoodWord w := h w (by simp)
    cases rest with
    | nil =>
      rw [intercalate_one]
      unfold pySplitChars
      rw [show w = w ++ [] by simp, splitPKeep_append_free isPySpace w [] hw.2]
      simp only [splitPKeep]
      simp [hw.1]
    | cons w2 rest2 =>
      have ih' := ih fun x hx => h x (by simp [hx])
      rw [intercalate_two]
      unfold pySplitChars
      rw [List.append_assoc]
      simp only [List.singleton_append]
      rw [splitPKeep_append_free isPySpace w (' ' :: List.intercalate [' '] (w2 :: rest2)) hw.2,
        splitPKeep_cons_sep isPySpace ' ' _ (by decide)]
      unfold pySplitChars at ih'
      simp [hw.1]
      simpa using ih' 

/-- Every piece produced by `splitPKeep` is free of separator characters. -/
theorem splitPKeep_pieces_free (p : Char → Bool) (cs : List Char) :
    ∀ w ∈ splitPKeep p cs, ∀ c ∈ w, p c = false := by
  induction cs with
  | nil =>
    intro w hw
    simp [splitPKeep] at hw
    simp [hw]
  | cons c rest ih =>
    intro w hw
    unfold splitPKeep at hw
    cases h : splitPKeep p rest with
    | nil => exact absurd h (splitPKeep_ne_nil p rest)
    | cons x xs =>
      rw [h] at hw
      by_cases hc : p c = true
      · simp only [hc, if_true] at hw
        rcases List.mem_cons.mp hw with rfl | hw2
        · intro d hd
          simp at hd
        · exact ih w (by rw [h]; exact hw2)
      · simp only [hc, if_false] at hw
        rcases List.mem_cons.mp hw with rfl | hw2
        · intro d hd
          rcases List.mem_cons.mp hd with rfl | hd2
          · simpa using hc
          · exact ih x (by rw [h]; simp) d hd2
        · exact ih w (by rw [h]; simp [hw2])

/-- Every word of `pySplitChars` is good. -/
theorem pySplitChars_good (cs : List Char) :
    ∀ w ∈ pySplitChars cs, GoodWord w := by
  intro w hw
  unfold pySplitChars at hw
  have hmem := List.mem_of_mem_filter hw
  have hne := List.of_mem_filter hw
  exact ⟨by simpa using hne, splitPKeep_pieces_free isPySpace cs w hmem⟩

/-- `intercalate` over a cons as a flattened map. -/
theorem list_intercalate_eq_flatten {α : Type} (sep : List α) (a : List α)
    (as : List (List α)) :
    List.intercalate sep (a :: as) = a ++ (as.map fun b => sep ++ b).flatten := by
  induction as generalizing a with
  | nil => rw [intercalate_one]; simp
  | cons b rest ih =>
    rw [intercalate_two, ih b]
    simp [List.append_assoc]

/-- Data of the accumulator loop of `String.intercalate`. -/
theorem string_intercalate_go_data (sep : String) (ss : List String) :
    ∀ acc : String, (String.intercalate.go acc sep ss).data =
      acc.data ++ (ss.map fun a => sep.data ++ a.data).flatten := by
  induction ss with
  | nil =>
    intro acc
    simp [String.intercalate.go]
  | cons a rest ih =>
    intro acc
    simp only [String.intercalate.go]
    rw [ih (acc ++ sep ++ a)]
    simp [List.append_assoc]

/-- The character data of `String.intercalate` is `List.intercalate` of the
data. -/
theorem string_intercalate_data (sep : String) (ss : List String) :
    (String.intercalate sep ss).data = List.intercalate sep.data (ss.map String.data) := by
  cases ss with
  | nil => rfl
  | cons a rest =>
    simp only [String.intercalate, List.map_cons]
    rw [string_intercalate_go_data sep rest a, list_intercalate_eq_flatten]
    simp [List.map_map]
    rfl

/-- The wrap loop's output is a list of space-joined groups whose
concatenation is the already-emitted groups, the current line, and the
remaining words, in order; all groups are non-empty. -/
theorem wordWrapLoop_groups (mw fs sw : PyFloat) :
    ∀ (ws lines cur : List String) (cw : PyFloat) (glines : List (List String)),
      lines = glines.map (String.intercalate " ") →
      (∀ g ∈ glines, g ≠ []) →
      ∃ gout : List (List String),
        wordWrapLoop mw fs sw ws lines cur cw = gout.map (String.intercalate " ") ∧
        gout.flatten = glines.flatten ++ cur ++ ws ∧
        ∀ g ∈ gout, g ≠ [] := by
  intro ws
  induction ws with
  | nil =>
    intro lines cur cw glines hlines hgood
    by_cases hcur : cur = []
    · refine ⟨glines, ?_, by simp [hcur], hgood⟩
      subst hcur
      simp only [wordWrapLoop]
      rw [if_neg (by simp), hlines]
    · refine ⟨glines ++ [cur], ?_, by simp, ?_⟩
      · simp only [wordWrapLoop]
        rw [if_pos hcur, hlines]
        simp
      · intro g hg
        rcases List.mem_append.mp hg with hg | hg
        · exact hgood g hg
        · simp at hg
          rw [hg]
          exact hcur
  | cons w ws ih =>
    intro lines cur cw glines hlines hgood
    simp only [wordWrapLoop]
    by_cases hb : (PyFloat.le
        (PyFloat.add (PyFloat.add cw (if cur ≠ [] then sw else PyFloat.finite 0))
          (estimate_text_width w fs)) mw || decide (cur = [])) = true
    · rw [if_pos hb]
      obtain ⟨gout, h1, h2, h3⟩ := ih lines (cur ++ [w]) _ glines hlines hgood
      refine ⟨gout, h1, ?_, h3⟩
      rw [h2]
      simp [List.append_assoc]
    · rw [if_neg hb]
      have hcurne : cur ≠ [] := by
        intro hc
        apply hb
        simp [hc]
      obtain ⟨gout, h1, h2, h3⟩ := ih (lines ++ [String.intercalate " " cur]) [w] _
        (glines ++ [cur]) (by simp [hlines]) (by
          intro g hg
          rcases List.mem_append.mp hg with hg | hg
          · exact hgood g hg
          · simp at hg
            rw [hg]
            exact hcurne)
      refine ⟨gout, h1, ?_, h3⟩
      rw [h2]
      simp [List.append_assoc]
/-- `intercalate` distributes over an append of non-empty lists of pieces. -/
theorem intercalate_append_ne {α : Type} (sep : List α) (a b : List (List α))
    (ha : a ≠ []) (hb : b ≠ []) :
    List.intercalate sep (a ++ b) =
      List.intercalate sep a ++ sep ++ List.intercalate sep b := by
  induction a with
  | nil => exact absurd rfl ha
  | cons x a' ih =>
    cases a' with
    | nil =>
      cases b with
      | nil => exact absurd rfl hb
      | cons y b' =>
        rw [intercalate_one]
        simp only [List.cons_append, List.nil_append]
        rw [intercalate_two]
    | cons x2 a'' =>
      have ih' := ih (by simp)
      simp only [List.cons_append] at ih' ⊢
      rw [intercalate_two, ih', intercalate_two]
      simp [List.append_assoc]

/-- Joining space-joined groups equals joining the concatenation of the
groups, for non-empty groups. -/
theorem intercalate_map_intercalate {α : Type} (sep : List α)
    (gs : List (List (List α))) (h : ∀ g ∈ gs, g ≠ []) :
    List.intercalate sep (gs.map (List.intercalate sep)) =
      List.intercalate sep gs.flatten := by
  induction gs with
  | nil => rfl
  | cons g rest ih =>
    cases rest with
    | nil =>
      simp only [List.map_cons, List.map_nil]
      rw [intercalate_one]
      simp
    | cons g2 rest2 =>
      have ihne : ∀ x ∈ g2 :: rest2, x ≠ [] := fun x hx => h x (by simp [hx])
      have ih' := ih ihne
      have hg : g ≠ [] := h g (by simp)
      have hflat : (g2 :: rest2).flatten ≠ [] := by
        have hg2 : g2 ≠ [] := h g2 (by simp)
        cases g2 with
        | nil => exact absurd rfl hg2
        | cons z zs => simp
      simp only [List.map_cons]
      rw [intercalate_two, ← List.map_cons, ih',
        show (g :: g2 :: rest2).flatten = g ++ (g2 :: rest2).flatten from by simp,
        intercalate_append_ne sep g ((g2 :: rest2).flatten) hg hflat]

/-- Flattening a mapped map commutes with flattening. -/
theorem flatten_map_map {α β : Type} (f : α → β) (gs : List (List α)) :
    (gs.map (List.map f)).flatten = gs.flatten.map f := by
  induction gs with
  | nil => rfl
  | cons g rest ih => simp only [List.map_cons, List.flatten_cons, List.map_append, ih]

/-- **C10** (implicit word preservation of word wrap): joining the lines
returned by `_word_wrap_text` with single spaces and splitting the result on
whitespace yields exactly the word sequence of the input text — wrapping
never drops, duplicates, reorders, or splits a word. -/
theorem word_wrap_text_preserves_words (t : String) (mw fs : PyFloat) :
    pySplit (String.intercalate " " (word_wrap_text t mw fs)) = pySplit t := by
  have hid : ∀ l : List (List Char), (l.map fun w => (String.mk w).data) = l := by
    intro l
    induction l with
    | nil => rfl
    | cons a as ih => simp only [List.map_cons, ih]
  have hsingle : pySplit (String.intercalate " " [t]) = pySplit t := by
    unfold pySplit
    rw [string_intercalate_data]
    simp only [List.map_cons, List.map_nil]
    rw [intercalate_one]
  unfold word_wrap_text
  by_cases h1 : PyFloat.le mw (PyFloat.finite 0) = true
  · rw [if_pos h1]
    exact hsingle
  · rw [if_neg h1]
    by_cases h2 : PyFloat.le (estimate_text_width t fs) mw = true
    · rw [if_pos h2]
      exact hsingle
    · rw [if_neg h2]
      by_cases h3 : pySplit t = []
      · rw [if_pos h3]
        exact hsingle
      · rw [if_neg h3]
        obtain ⟨gout, hout, hflat, hgood⟩ :=
          wordWrapLoop_groups mw fs (estimate_text_width " " fs) (pySplit t) [] []
            (PyFloat.finite 0) [] rfl (by simp)
        rw [hout]
        have hflat' : gout.flatten = pySplit t := by
          rw [hflat]
          simp
        have hGnz : ∀ g ∈ gout.map (List.map String.data), g ≠ [] := by
          intro g hg
          obtain ⟨g0, hg0, hge⟩ := List.mem_map.mp hg
          rw [← hge]
          cases g0 with
          | nil => exact absurd rfl (hgood [] hg0)
          | cons a as => simp
        have key : (String.intercalate " " (gout.map (String.intercalate " "))).data =
            List.intercalate [' '] (pySplitChars t.data) := by
          rw [string_intercalate_data]
          have hmaps : (gout.map (String.intercalate " ")).map String.data =
              (gout.map (List.map String.data)).map (List.intercalate " ".data) := by
            simp only [List.map_map]
            apply List.map_congr_left
            intro g hgm
            simp only [Function.comp_apply]
            rw [string_intercalate_data]
          rw [hmaps, intercalate_map_intercalate " ".data _ hGnz,
            flatten_map_map String.data gout, hflat']
          have hps : (pySplit t).map String.data = pySplitChars t.data := by
            unfold pySplit
            rw [List.map_map]
            exact hid _
          rw [hps]
        unfold pySplit
        rw [key, pySplitChars_intercalate _ (pySplitChars_good t.data)]

/-- Adding float zero on the left is the identity. -/
theorem pyAdd_zero_left (x : PyFloat) :
    PyFloat.add (PyFloat.finite 0) x = x := by
  cases x with
  | finite q =>
    cases q with
    | mk n d =>
      show PyFloat.finite ⟨0 * d + n * 1, 1 * d⟩ = PyFloat.finite ⟨n, d⟩
      simp
  | inf => rfl
  | ninf => rfl
  | nan => rfl

/-- The word-wrap loop refines the spec's greedy fold, under the invariant
that an empty current line has current width zero. -/
theorem wordWrapLoop_eq_foldl (mw fs sw : PyFloat) :
    ∀ (ws lines cur : List String) (cw : PyFloat),
      (cur = [] → cw = PyFloat.finite 0) →
      wordWrapLoop mw fs sw ws lines cur cw =
        specFlush (ws.foldl (specWordWrapStep mw fs sw) (lines, cur, cw)) := by
  intro ws
  induction ws with
  | nil =>
    intro lines cur cw hinv
    by_cases hcur : cur = []
    · subst hcur
      simp [wordWrapLoop, specFlush]
    · simp only [wordWrapLoop, List.foldl_nil, specFlush]
      rw [if_pos hcur, if_neg hcur]
  | cons w ws ih =>
    intro lines cur cw hinv
    simp only [wordWrapLoop, List.foldl_cons]
    by_cases hcur : cur = []
    · subst hcur
      rw [if_pos (by simp), hinv rfl, if_neg (by simp), pyAdd_zero_left, pyAdd_zero_left,
        List.nil_append,
        show specWordWrapStep mw fs sw (lines, [], PyFloat.finite 0) w =
          (lines, [w], estimate_text_width w fs) from by simp [specWordWrapStep]]
      exact ih lines [w] _ (fun h => absurd h (by simp))
    · rw [show (if cur ≠ [] then sw else PyFloat.finite 0) = sw from if_pos hcur]
      by_cases hle : PyFloat.le
          (PyFloat.add (PyFloat.add cw sw) (estimate_text_width w fs)) mw = true
      · rw [if_pos (by simp [hle]),
          show specWordWrapStep mw fs sw (lines, cur, cw) w =
            (lines, cur ++ [w],
              PyFloat.add (PyFloat.add cw sw) (estimate_text_width w fs)) from by
            simp [specWordWrapStep, hcur, hle]]
        exact ih lines (cur ++ [w]) _ (fun h => absurd h (by simp))
      · rw [if_neg (by simp [hle, hcur]),
          show specWordWrapStep mw fs sw (lines, cur, cw) w =
            (lines ++ [String.intercalate " " cur], [w],
              estimate_text_width w fs) from by
            simp [specWordWrapStep, hcur, hle]]
        exact ih _ [w] _ (fun h => absurd h (by simp))

/-- **C9** (word wrap): the text is returned as a single line when the
maximum width is non-positive or the estimated width of the whole text
already fits; otherwise the loop refines the spec's greedy fold
(`specWordWrap`), which packs words while
`currentWidth + spaceWidth + nextWordWidth <= maxWidth` and always accepts
the first word of a line; a single whitespace-free word is returned as one
line, never split, and in particular the oversized word at `maxWidth = 1`
comes back as one line. -/
theorem word_wrap_text_spec :
    (∀ t mw fs, (PyFloat.le mw (PyFloat.finite 0) = true ∨
        PyFloat.le (estimate_text_width t fs) mw = true) →
      word_wrap_text t mw fs = [t]) ∧
    (∀ t mw fs, word_wrap_text t mw fs = specWordWrap t mw fs) ∧
    (∀ w mw fs, w.data ≠ [] → (∀ c ∈ w.data, isPySpace c = false) →
      word_wrap_text w mw fs = [w]) ∧
    word_wrap_text "supercalifragilistic" (PyFloat.finite 1) (PyFloat.finite 12) =
      ["supercalifragilistic"] := by
  refine ⟨?_, ?_, ?_, ?_⟩
  · intro t mw fs h
    unfold word_wrap_text
    rcases h with h | h
    · rw [if_pos h]
    · by_cases h1 : PyFloat.le mw (PyFloat.finite 0) = true
      · rw [if_pos h1]
      · rw [if_neg h1, if_pos h]
  · intro t mw fs
    unfold word_wrap_text specWordWrap
    by_cases h1 : PyFloat.le mw (PyFloat.finite 0) = true
    · rw [if_pos h1, if_pos h1]
    · rw [if_neg h1, if_neg h1]
      by_cases h2 : PyFloat.le (estimate_text_width t fs) mw = true
      · rw [if_pos h2, if_pos h2]
      · rw [if_neg h2, if_neg h2]
        by_cases h3 : pySplit t = []
        · rw [if_pos h3, if_pos h3]
        · rw [if_neg h3, if_neg h3]
          exact wordWrapLoop_eq_foldl mw fs (estimate_text_width " " fs) (pySplit t) [] []
            (PyFloat.finite 0) (fun _ => rfl)
  · intro w mw fs hne hfree
    have hchars : pySplitChars w.data = [w.data] := by
      have h2 := pySplitChars_intercalate [w.data] (by
        intro x hx
        simp at hx
        rw [hx]
        exact ⟨hne, hfree⟩)
      rwa [intercalate_one] at h2
    have hw : pySplit w = [w] := by
      unfold pySplit
      rw [hchars]
      rfl
    by_cases h1 : PyFloat.le mw (PyFloat.finite 0) = true
    · unfold word_wrap_text
      rw [if_pos h1]
    · by_cases h2 : PyFloat.le (estimate_text_width w fs) mw = true
      · unfold word_wrap_text
        rw [if_neg h1, if_pos h2]
      · unfold word_wrap_text
        rw [if_neg h1, if_neg h2, hw, if_neg (by simp)]
        simp only [wordWrapLoop]
        rw [if_pos (by simp)]
        rfl
  · rfl

/-- Witness for C9 at concrete inputs. -/
theorem word_wrap_text_spec_witness :
    word_wrap_text "hello world" (PyFloat.finite 1000) (PyFloat.finite 12) = ["hello world"] ∧
    word_wrap_text "wordword" (PyFloat.finite 1) (PyFloat.finite 12) = ["wordword"] :=
  ⟨word_wrap_text_spec.1 "hello world" (PyFloat.finite 1000) (PyFloat.finite 12)
      (Or.inr (by decide)),
   word_wrap_text_spec.2.2.1 "wordword" (PyFloat.finite 1) (PyFloat.finite 12)
      (by decide) (by decide)⟩

/-- The first character surviving `dropWhile` fails the predicate. -/
theorem take1_dropWhile_not (p : Char → Bool) (xs : List Char) :
    ∀ c ∈ (xs.dropWhile p).take 1, p c = false := by
  induction xs with
  | nil =>
    intro c hc
    simp [List.dropWhile] at hc
  | cons x rest ih =>
    intro c hc
    rw [List.dropWhile_cons] at hc
    by_cases hx : p x = true
    · rw [if_pos hx] at hc
      exact ih c hc
    · rw [if_neg hx] at hc
      simp at hc
      rw [hc]
      exact Bool.eq_false_iff.mpr hx

/-- Back-stripping a list ending in a non-space keeps that character last. -/
theorem take1_reverse_dropWhile_append (p : Char → Bool) (ys : List Char)
    (x : Char) (hx : p x = false) :
    ∀ c ∈ (List.dropWhile p (ys ++ [x])).reverse.take 1, p c = false := by
  induction ys with
  | nil =>
    intro c hc
    rw [List.nil_append, List.dropWhile_cons, if_neg (by simp [hx])] at hc
    simp at hc
    rw [hc]
    exact hx
  | cons y ys ih =>
    intro c hc
    rw [List.cons_append, List.dropWhile_cons] at hc
    by_cases hy : p y = true
    · rw [if_pos hy] at hc
      exact ih c hc
    · rw [if_neg hy] at hc
      simp [List.reverse_cons, List.reverse_append] at hc
      rw [hc]
      exact hx

/-- Front-stripping then back-stripping keeps a non-space first character. -/
theorem take1_reverse_dropWhile_reverse (p : Char → Bool) (xs : List Char)
    (hx : ∀ c ∈ xs.take 1, p c = false) :
    ∀ c ∈ (List.dropWhile p xs.reverse).reverse.take 1, p c = false := by
  cases xs with
  | nil =>
    intro c hc
    simp [List.dropWhile] at hc
  | cons x rest =>
    rw [List.reverse_cons]
    exact take1_reverse_dropWhile_append p rest.reverse x (hx x (by simp))

/-- `str.strip()` is idempotent (character level). -/
theorem pyStripChars_idem (cs : List Char) :
    pyStripChars (pyStripChars cs) = pyStripChars cs := by
  have hu : ∀ c ∈ (cs.dropWhile isPySpace).take 1, isPySpace c = false :=
    take1_dropWhile_not isPySpace cs
  have hfront := take1_reverse_dropWhile_reverse isPySpace (cs.dropWhile isPySpace) hu
  have hback := take1_dropWhile_not isPySpace (cs.dropWhile isPySpace).reverse
  show pyStripChars (((cs.dropWhile isPySpace).reverse.dropWhile isPySpace).reverse) = _
  unfold pyStripChars
  rw [dropWhile_eq_self_of_head hfront, List.reverse_reverse,
    dropWhile_eq_self_of_head hback]

/-- `str.strip()` is idempotent. -/
theorem pyStrip_idem (s : String) : pyStrip (pyStrip s) = pyStrip s := by
  show (⟨pyStripChars (pyStripChars s.data)⟩ : String) = ⟨pyStripChars s.data⟩
  rw [pyStripChars_idem]

/-- `flush_line` only ever appends stripped non-empty lines. -/
theorem flushLine_ok (st : ExtractState)
    (h : ∀ l ∈ st.lines, pyStrip l = l ∧ l ≠ "") :
    ∀ l ∈ (flushLine st).lines, pyStrip l = l ∧ l ≠ "" := by
  intro l hl
  simp only [flushLine] at hl
  by_cases ht : pyStrip (String.join st.cur) ≠ ""
  · rw [if_pos ht] at hl
    rcases List.mem_append.mp hl with hl | hl
    · exact h l hl
    · simp at hl
      rw [hl]
      exact ⟨pyStrip_idem _, ht⟩
  · rw [if_neg ht] at hl
    exact h l hl

/-- `addParts` preserves the lines invariant. -/
theorem addParts_ok (ps : List String) :
    ∀ st : ExtractState, (∀ l ∈ st.lines, pyStrip l = l ∧ l ≠ "") →
      ∀ l ∈ (addParts ps st).lines, pyStrip l = l ∧ l ≠ "" := by
  induction ps with
  | nil =>
    intro st h
    exact h
  | cons p rest ih =>
    intro st h
    cases rest with
    | nil => exact h
    | cons q rest2 =>
      exact ih _ (flushLine_ok _ h)

/-- `addOptText` preserves the lines invariant. -/
theorem addOptText_ok (t : Option String) (st : ExtractState)
    (h : ∀ l ∈ st.lines, pyStrip l = l ∧ l ≠ "") :
    ∀ l ∈ (addOptText t st).lines, pyStrip l = l ∧ l ≠ "" := by
  cases t with
  | none => exact h
  | some s =>
    simp only [addOptText]
    by_cases hs : s ≠ ""
    · rw [if_pos hs]
      exact addParts_ok _ st h
    · rw [if_neg hs]
      exact h

mutual
/-- `process_element` preserves the lines invariant. -/
theorem processElem_ok (e : XmlElem) (st : ExtractState)
    (h : ∀ l ∈ st.lines, pyStrip l = l ∧ l ≠ "") :
    ∀ l ∈ (processElem e st).lines, pyStrip l = l ∧ l ≠ "" := by
  cases e with
  | mk tag attrs nsmap text tail children =>
    simp only [processElem]
    by_cases hbr : lowerStr (localName tag) = "br"
    · rw [if_pos hbr]
      exact flushLine_ok st h
    · rw [if_neg hbr]
      exact processChildren_ok children _ (addOptText_ok text st h)

/-- The child loop preserves the lines invariant. -/
theorem processChildren_ok (ch : XmlChildren) (st : ExtractState)
    (h : ∀ l ∈ st.lines, pyStrip l = l ∧ l ≠ "") :
    ∀ l ∈ (processChildren ch st).lines, pyStrip l = l ∧ l ≠ "" := by
  cases ch with
  | nil => exact h
  | cons c rest =>
    exact processChildren_ok rest _
      (addOptText_ok c.tail _ (processElem_ok c st h))
end

/-- **C8** (text extraction): every extracted line is trimmed and non-empty;
a line-break element (local name `br`, case-insensitive, any namespace)
flushes the current line, as does a literal newline character and a
two-character backslash-n sequence in text, as the concrete islands
`Line1<br/>Line2`, `A\nB` (backslash-n), `A` newline `B`, and a namespaced
uppercase `BR` show. -/
theorem extract_text_lines_spec :
    (∀ e : XmlElem, ∀ l ∈ extract_text_lines_from_element e,
        pyStrip l = l ∧ l ≠ "") ∧
    extract_text_lines_from_element
        (.mk "div" [] [] (some "Line1") none
          (.cons (.mk "br" [] [] none (some "Line2") .nil) .nil)) = ["Line1", "Line2"] ∧
    extract_text_lines_from_element
        (.mk "div" [] [] (some "A\\nB") none .nil) = ["A", "B"] ∧
    extract_text_lines_from_element
        (.mk "div" [] [] (some "A\nB") none .nil) = ["A", "B"] ∧
    extract_text_lines_from_element
        (.mk "div" [] [] (some "One") none
          (.cons (.mk "\x7bhttp://www.w3.org/1999/xhtml\x7dBR" [] [] none (some "Two") .nil)
            .nil)) = ["One", "Two"] := by
  refine ⟨?_, by decide, by decide, by decide, by decide⟩
  intro e l hl
  exact flushLine_ok _
    (processElem_ok e ⟨[], []⟩ (by intro l' hl'; simp at hl')) l hl

/-- Witness for C8's universally quantified conjunct at a concrete element. -/
theorem extract_text_lines_spec_witness :
    pyStrip "Line1" = "Line1" ∧ "Line1" ≠ "" :=
  extract_text_lines_spec.1
    (.mk "div" [] [] (some " Line1 ") none .nil) "Line1" (by decide)

/-! ### UTF-8 encode/decode round-trip -/

/-- A valid code point survives `Char.ofNat`. -/
theorem toNat_ofNat_valid (n : Nat) (h : n.isValidChar) : (Char.ofNat n).toNat = n := by
  unfold Char.ofNat
  rw [dif_pos h]
  rfl

theorem encodeChar_one (b : Nat) (hb : b < 0x80) :
    utf8EncodeChar (Char.ofNat b) = [b] := by
  have ht : (Char.ofNat b).toNat = b := toNat_ofNat_valid b (Or.inl (by omega))
  unfold utf8EncodeChar
  rw [ht, if_pos hb]

theorem encodeChar_two (b b2 : Nat) (hb1 : 0xC2 ≤ b) (hb2 : b ≤ 0xDF)
    (h21 : 0x80 ≤ b2) (h22 : b2 ≤ 0xBF) :
    utf8EncodeChar (Char.ofNat ((b - 0xC0) * 0x40 + (b2 - 0x80))) = [b, b2] := by
  have ht : (Char.ofNat ((b - 0xC0) * 0x40 + (b2 - 0x80))).toNat =
      (b - 0xC0) * 0x40 + (b2 - 0x80) :=
    toNat_ofNat_valid _ (Or.inl (by omega))
  unfold utf8EncodeChar
  rw [ht, if_neg (by omega), if_pos (by omega)]
  have e1 : 0xC0 + ((b - 0xC0) * 0x40 + (b2 - 0x80)) / 0x40 = b := by omega
  have e2 : 0x80 + ((b - 0xC0) * 0x40 + (b2 - 0x80)) % 0x40 = b2 := by omega
  rw [e1, e2]

theorem encodeChar_three (b b2 b3 : Nat) (hb1 : 0xE0 ≤ b) (hb2 : b ≤ 0xEF)
    (h21 : (if b = 0xE0 then 0xA0 else 0x80) ≤ b2)
    (h22 : b2 ≤ (if b = 0xED then 0x9F else 0xBF))
    (h31 : 0x80 ≤ b3) (h32 : b3 ≤ 0xBF) :
    utf8EncodeChar (Char.ofNat ((b - 0xE0) * 0x1000 + (b2 - 0x80) * 0x40 + (b3 - 0x80))) =
      [b, b2, b3] := by
  have hlo : 0x80 ≤ b2 := by
    by_cases h : b = 0xE0
    · rw [if_pos h] at h21; omega
    · rw [if_neg h] at h21; omega
  have hhi : b2 ≤ 0xBF := by
    by_cases h : b = 0xED
    · rw [if_pos h] at h22; omega
    · rw [if_neg h] at h22; omega
  have hval : ((b - 0xE0) * 0x1000 + (b2 - 0x80) * 0x40 + (b3 - 0x80)).isValidChar := by
    by_cases h : b = 0xED
    · rw [if_pos h] at h22
      subst h
      exact Or.inl (by omega)
    · by_cases h2 : b ≤ 0xEC
      · exact Or.inl (by omega)
      · refine Or.inr ⟨by omega, by omega⟩
  have hge : 0x800 ≤ (b - 0xE0) * 0x1000 + (b2 - 0x80) * 0x40 + (b3 - 0x80) := by
    by_cases h : b = 0xE0
    · rw [if_pos h] at h21
      subst h
      omega
    · omega
  have ht := toNat_ofNat_valid _ hval
  unfold utf8EncodeChar
  rw [ht, if_neg (by omega), if_neg (by omega), if_pos (by omega)]
  have e1 : 0xE0 + ((b - 0xE0) * 0x1000 + (b2 - 0x80) * 0x40 + (b3 - 0x80)) / 0x1000 = b := by
    omega
  have e2 : 0x80 + ((b - 0xE0) * 0x1000 + (b2 - 0x80) * 0x40 + (b3 - 0x80)) / 0x40 % 0x40 = b2 := by
    omega
  have e3 : 0x80 + ((b - 0xE0) * 0x1000 + (b2 - 0x80) * 0x40 + (b3 - 0x80)) % 0x40 = b3 := by
    omega
  rw [e1, e2, e3]

theorem encodeChar_four (b b2 b3 b4 : Nat) (hb1 : 0xF0 ≤ b) (hb2 : b ≤ 0xF4)
    (h21 : (if b = 0xF0 then 0x90 else 0x80) ≤ b2)
    (h22 : b2 ≤ (if b = 0xF4 then 0x8F else 0xBF))
    (h31 : 0x80 ≤ b3) (h32 : b3 ≤ 0xBF)
    (h41 : 0x80 ≤ b4) (h42 : b4 ≤ 0xBF) :
    utf8EncodeChar (Char.ofNat
        ((b - 0xF0) * 0x40000 + (b2 - 0x80) * 0x1000 + (b3 - 0x80) * 0x40 + (b4 - 0x80))) =
      [b, b2, b3, b4] := by
  have hlo : 0x80 ≤ b2 := by
    by_cases h : b = 0xF0
    · rw [if_pos h] at h21; omega
    · rw [if_neg h] at h21; omega
  have hhi : b2 ≤ 0xBF := by
    by_cases h : b = 0xF4
    · rw [if_pos h] at h22; omega
    · rw [if_neg h] at h22; omega
  have hbig : 0x10000 ≤ (b - 0xF0) * 0x40000 + (b2 - 0x80) * 0x1000 + (b3 - 0x80) * 0x40 + (b4 - 0x80) := by
    by_cases h : b = 0xF0
    · rw [if_pos h] at h21
      subst h
      omega
    · omega
  have hub : (b - 0xF0) * 0x40000 + (b2 - 0x80) * 0x1000 + (b3 - 0x80) * 0x40 + (b4 - 0x80) < 0x110000 := by
    by_cases h : b = 0xF4
    · rw [if_pos h] at h22
      subst h
      omega
    · omega
  have hval : ((b - 0xF0) * 0x40000 + (b2 - 0x80) * 0x1000 + (b3 - 0x80) * 0x40 + (b4 - 0x80)).isValidChar :=
    Or.inr ⟨by omega, by omega⟩
  have ht := toNat_ofNat_valid _ hval
  unfold utf8EncodeChar
  rw [ht, if_neg (by omega), if_neg (by omega), if_neg (by omega)]
  have e1 : 0xF0 + ((b - 0xF0) * 0x40000 + (b2 - 0x80) * 0x1000 + (b3 - 0x80) * 0x40 + (b4 - 0x80)) / 0x40000 = b := by
    omega
  have e2 : 0x80 + ((b - 0xF0) * 0x40000 + (b2 - 0x80) * 0x1000 + (b3 - 0x80) * 0x40 + (b4 - 0x80)) / 0x1000 % 0x40 = b2 := by
    omega
  have e3 : 0x80 + ((b - 0xF0) * 0x40000 + (b2 - 0x80) * 0x1000 + (b3 - 0x80) * 0x40 + (b4 - 0x80)) / 0x40 % 0x40 = b3 := by
    omega
  have e4 : 0x80 + ((b - 0xF0) * 0x40000 + (b2 - 0x80) * 0x1000 + (b3 - 0x80) * 0x40 + (b4 - 0x80)) % 0x40 = b4 := by
    omega
  rw [e1, e2, e3, e4]

theorem utf8Encode_cons (c : Char) (cs : List Char) :
    utf8Encode (c :: cs) = utf8EncodeChar c ++ utf8Encode cs := by
  simp [utf8Encode]

theorem utf8Encode_append (a b : List Char) :
    utf8Encode (a ++ b) = utf8Encode a ++ utf8Encode b := by
  simp [utf8Encode]


theorem utf8Decode_encode :
    ∀ (f : Nat) (data : List Nat), data.length ≤ f →
      ∀ cs, utf8DecodeF f data = some cs → utf8Encode cs = data := by
  intro f
  induction f with
  | zero =>
    intro data hlen cs hdec
    cases data with
    | nil =>
      rw [utf8DecodeF.eq_1] at hdec
      cases hdec
      rfl
    | cons b rest => simp at hlen
  | succ n ih =>
    intro data hlen cs hdec
    match data, hlen, hdec with
    | [], hlen, hdec =>
      rw [utf8DecodeF.eq_1] at hdec
      cases hdec
      rfl
    | [b], hlen, hdec =>
      rw [utf8DecodeF.eq_4] at hdec
      by_cases h1 : b < 0x80
      · rw [if_pos h1, utf8DecodeF.eq_1] at hdec
        simp only [Option.map_some', Option.some.injEq] at hdec
        subst hdec
        rw [utf8Encode_cons, encodeChar_one b h1]
        rfl
      · rw [if_neg h1] at hdec
        repeat' split at hdec
        all_goals cases hdec
    | b :: b2 :: rest2, hlen, hdec =>
      rw [utf8DecodeF.eq_3] at hdec
      by_cases h1 : b < 0x80
      · rw [if_pos h1] at hdec
        cases hrest : utf8DecodeF n (b2 :: rest2) with
        | none =>
          rw [hrest] at hdec
          cases hdec
        | some cs' =>
          rw [hrest] at hdec
          simp only [Option.map_some', Option.some.injEq] at hdec
          subst hdec
          rw [utf8Encode_cons, encodeChar_one b h1,
            ih (b2 :: rest2) (by simp at hlen ⊢; omega) cs' hrest]
          rfl
      · rw [if_neg h1] at hdec
        by_cases h2 : (0xC2 ≤ b && b ≤ 0xDF) = true
        · rw [if_pos h2] at hdec
          simp only [Bool.and_eq_true, decide_eq_true_eq] at h2
          by_cases hc : isCont b2 = true
          · rw [if_pos hc] at hdec
            cases hrest : utf8DecodeF n rest2 with
            | none =>
              rw [hrest] at hdec
              cases hdec
            | some cs' =>
              rw [hrest] at hdec
              simp only [Option.map_some', Option.some.injEq] at hdec
              subst hdec
              have hc2 : (0x80 ≤ b2 ∧ b2 ≤ 0xBF) := by
                simpa [isCont, Bool.and_eq_true, decide_eq_true_eq] using hc
              rw [utf8Encode_cons, encodeChar_two b b2 h2.1 h2.2 hc2.1 hc2.2,
                ih rest2 (by simp at hlen; omega) cs' hrest]
              rfl
          · rw [if_neg hc] at hdec
            cases hdec
        · rw [if_neg h2] at hdec
          by_cases h3 : (0xE0 ≤ b && b ≤ 0xEF) = true
          · rw [if_pos h3] at hdec
            simp only [Bool.and_eq_true, decide_eq_true_eq] at h3
            match rest2, hlen, hdec with
            | [], hlen, hdec =>
              dsimp only at hdec
              cases hdec
            | b3 :: rest3, hlen, hdec =>
              dsimp only at hdec
              by_cases hcond : ((if b = 0xE0 then 0xA0 else 0x80) ≤ b2 &&
                  b2 ≤ (if b = 0xED then 0x9F else 0xBF) && isCont b3) = true
              · rw [if_pos hcond] at hdec
                simp only [isCont, Bool.and_eq_true, decide_eq_true_eq] at hcond
                cases hrest : utf8DecodeF n rest3 with
                | none =>
                  rw [hrest] at hdec
                  cases hdec
                | some cs' =>
                  rw [hrest] at hdec
                  simp only [Option.map_some', Option.some.injEq] at hdec
                  subst hdec
                  rw [utf8Encode_cons,
                    encodeChar_three b b2 b3 h3.1 h3.2 hcond.1.1 hcond.1.2
                      hcond.2.1 hcond.2.2,
                    ih rest3 (by simp at hlen; omega) cs' hrest]
                  rfl
              · rw [if_neg hcond] at hdec
                cases hdec
          · rw [if_neg h3] at hdec
            by_cases h4 : (0xF0 ≤ b && b ≤ 0xF4) = true
            · rw [if_pos h4] at hdec
              simp only [Bool.and_eq_true, decide_eq_true_eq] at h4
              match rest2, hlen, hdec with
              | [], hlen, hdec =>
                dsimp only at hdec
                cases hdec
              | [b3], hlen, hdec =>
                dsimp only at hdec
                cases hdec
              | b3 :: b4 :: rest4, hlen, hdec =>
                dsimp only at hdec
                by_cases hcond : ((if b = 0xF0 then 0x90 else 0x80) ≤ b2 &&
                    b2 ≤ (if b = 0xF4 then 0x8F else 0xBF) &&
                      isCont b3 && isCont b4) = true
                · rw [if_pos hcond] at hdec
                  simp only [isCont, Bool.and_eq_true, decide_eq_true_eq] at hcond
                  cases hrest : utf8DecodeF n rest4 with
                  | none =>
                    rw [hrest] at hdec
                    cases hdec
                  | some cs' =>
                    rw [hrest] at hdec
                    simp only [Option.map_some', Option.some.injEq] at hdec
                    subst hdec
                    rw [utf8Encode_cons,
                      encodeChar_four b b2 b3 b4 h4.1 h4.2 hcond.1.1.1 hcond.1.1.2
                        hcond.1.2.1 hcond.1.2.2 hcond.2.1 hcond.2.2,
                      ih rest4 (by simp at hlen; omega) cs' hrest]
                    rfl
                · rw [if_neg hcond] at hdec
                  cases hdec
            · rw [if_neg h4] at hdec
              cases hdec

theorem utf8_roundtrip (data : List Nat) (cs : List Char)
    (h : utf8Decode data = some cs) : utf8Encode cs = data :=
  utf8Decode_encode data.length data le_rfl cs h

/-- `takeWhile` collects exactly the separator-free prefix. -/
theorem takeWhile_until_gt (mid x : List Char) (hmid : ∀ c ∈ mid, (c != '>') = true) :
    (mid ++ '>' :: x).takeWhile (fun c => c != '>') = mid := by
  induction mid with
  | nil => simp [List.takeWhile_cons]
  | cons c mid ih =>
    have hc : (c != '>') = true := hmid c (by simp)
    rw [List.cons_append, List.takeWhile_cons, hc, if_pos rfl,
      ih fun d hd => hmid d (by simp [hd])]

/-- `dropWhile` stops exactly at the separator. -/
theorem dropWhile_until_gt (mid x : List Char) (hmid : ∀ c ∈ mid, (c != '>') = true) :
    (mid ++ '>' :: x).dropWhile (fun c => c != '>') = '>' :: x := by
  induction mid with
  | nil => simp [List.dropWhile_cons]
  | cons c mid ih =>
    have hc : (c != '>') = true := hmid c (by simp)
    rw [List.cons_append, List.dropWhile_cons, hc, if_pos rfl]
    exact ih fun d hd => hmid d (by simp [hd])

/-- The span in the `<svg...>` matcher splits at the first `>`. -/
theorem span_until_gt (mid x : List Char) (hmid : ∀ c ∈ mid, (c != '>') = true) :
    (mid ++ '>' :: x).span (fun c => c != '>') = (mid, '>' :: x) := by
  rw [List.span_eq_take_drop, takeWhile_until_gt mid x hmid,
    dropWhile_until_gt mid x hmid]

/-- Soundness of the anchored matcher: the match is an initial `<svg`,
a non-word boundary, a `>`-free middle, and the first `>`. -/
theorem svgMatchHere_sound {cs m rest : List Char}
    (h : svgMatchHere cs = some (m, rest)) :
    ∃ mid : List Char,
      cs = m ++ rest ∧
      m = '<' :: 's' :: 'v' :: 'g' :: (mid ++ ['>']) ∧
      (∀ c ∈ mid, (c != '>') = true) ∧
      (mid = [] ∨ ∃ c0 mid2, mid = c0 :: mid2 ∧ (!isWordChar c0) = true) := by
  unfold svgMatchHere at h
  split at h
  · rename_i rest0
    dsimp only at h
    split at h
    · rename_i hbok
      cases hsp : rest0.span (fun c => c != '>') with
      | mk mid r2 =>
        rw [hsp] at h
        dsimp only at h
        split at h
        · simp only [Option.some.injEq, Prod.mk.injEq] at h
          obtain ⟨hm, hrest⟩ := h
          rw [hrest] at hsp
          have htw : rest0.takeWhile (fun c => c != '>') = mid := by
            have h2 := congrArg Prod.fst hsp
            rwa [List.span_eq_take_drop] at h2
          have hdw : rest0.dropWhile (fun c => c != '>') = '>' :: rest := by
            have h2 := congrArg Prod.snd hsp
            rwa [List.span_eq_take_drop] at h2
          have hdecomp : rest0 = mid ++ '>' :: rest := by
            rw [← htw, ← hdw]
            exact (List.takeWhile_append_dropWhile _ rest0).symm
          have hmid : ∀ c ∈ mid, (c != '>') = true := by
            intro c hc
            rw [← htw] at hc
            have h3 := List.mem_takeWhile_imp hc
            simpa using h3
          refine ⟨mid, ?_, hm.symm, hmid, ?_⟩
          · rw [← hm, hdecomp]
            simp
          · cases hmide : mid with
            | nil => exact Or.inl rfl
            | cons c0 mid2 =>
              refine Or.inr ⟨c0, mid2, rfl, ?_⟩
              rw [hdecomp, hmide] at hbok
              simpa using hbok
        · cases h
    · cases h
  · cases h

/-- The matched substring matches again wherever it occurs. -/
theorem svgMatchHere_again (mid x : List Char)
    (hmid : ∀ c ∈ mid, (c != '>') = true)
    (hb : mid = [] ∨ ∃ c0 mid2, mid = c0 :: mid2 ∧ (!isWordChar c0) = true) :
    svgMatchHere (('<' :: 's' :: 'v' :: 'g' :: (mid ++ ['>'])) ++ x) =
      some ('<' :: 's' :: 'v' :: 'g' :: (mid ++ ['>']), x) := by
  have hassoc : (('<' :: 's' :: 'v' :: 'g' :: (mid ++ ['>'])) ++ x) =
      '<' :: 's' :: 'v' :: 'g' :: (mid ++ '>' :: x) := by
    simp
  rw [hassoc]
  have hbok : (match mid ++ '>' :: x with
      | [] => true
      | c :: _ => !isWordChar c) = true := by
    rcases hb with rfl | ⟨c0, mid2, rfl, hc0⟩
    · rw [List.nil_append]
      show (!isWordChar '>') = true
      decide
    · rw [List.cons_append]
      exact hc0
  show (if (match mid ++ '>' :: x with
      | [] => true
      | c :: _ => !isWordChar c) = true then
    match (List.span (fun c => c != '>') (mid ++ '>' :: x)).2 with
    | '>' :: r3 =>
      some ('<' :: 's' :: 'v' :: 'g' ::
        ((List.span (fun c => c != '>') (mid ++ '>' :: x)).1 ++ ['>']), r3)
    | _ => none
  else none) = some ('<' :: 's' :: 'v' :: 'g' :: (mid ++ ['>']), x)
  rw [if_pos hbok, span_until_gt mid x hmid]
  rfl

/-- Soundness of `re.search`: the result decomposes the text, the match
matches at its position, and no earlier position matches. -/
theorem svgSearch_sound :
    ∀ (cs pre m post : List Char), svgSearch cs = some (pre, m, post) →
      cs = pre ++ m ++ post ∧
      svgMatchHere (m ++ post) = some (m, post) ∧
      ∀ i, i < pre.length → svgMatchHere (cs.drop i) = none := by
  intro cs
  induction cs with
  | nil =>
    intro pre m post h
    simp [svgSearch] at h
  | cons c cs ih =>
    intro pre m post h
    rw [svgSearch] at h
    cases hm : svgMatchHere (c :: cs) with
    | some pr =>
      obtain ⟨m0, rest0⟩ := pr
      rw [hm] at h
      dsimp only at h
      simp only [Option.some.injEq, Prod.mk.injEq] at h
      obtain ⟨hpre, hm0, hpost⟩ := h
      subst hpre
      subst hm0
      subst hpost
      obtain ⟨mid, hdecomp, _, _, _⟩ := svgMatchHere_sound hm
      refine ⟨by simpa using hdecomp, ?_, ?_⟩
      · rw [← hdecomp]
        exact hm
      · intro i hi
        simp at hi
    | none =>
      rw [hm] at h
      dsimp only at h
      cases hs : svgSearch cs with
      | none =>
        rw [hs] at h
        cases h
      | some t =>
        obtain ⟨pre1, m1, post1⟩ := t
        rw [hs] at h
        dsimp only at h
        simp only [Option.some.injEq, Prod.mk.injEq] at h
        obtain ⟨hpre, hm1, hpost⟩ := h
        obtain ⟨hdec1, hmm1, hleft1⟩ := ih pre1 m1 post1 hs
        refine ⟨?_, ?_, ?_⟩
        · rw [← hpre, ← hm1, ← hpost]
          simp [hdec1]
        · rw [← hm1, ← hpost]
          exact hmm1
        · intro i hi
          rw [← hpre] at hi
          cases i with
          | zero => exact hm
          | succ j =>
            rw [List.drop_succ_cons]
            exact hleft1 j (by simpa using hi)

/-- `str.replace(old, new, 1)` rewrites exactly the marked occurrence when no
earlier position starts an occurrence of `old`. -/
theorem replaceFirst_split (old new : List Char) (hold : old ≠ []) :
    ∀ pre post : List Char,
      (∀ i, i < pre.length → old.isPrefixOf ((pre ++ (old ++ post)).drop i) = false) →
      replaceFirst old new (pre ++ (old ++ post)) = pre ++ (new ++ post) := by
  intro pre
  induction pre with
  | nil =>
    intro post _
    simp only [List.nil_append]
    cases hoe : old with
    | nil => exact absurd hoe hold
    | cons c old' =>
      rw [List.cons_append, replaceFirst]
      have hpref : (c :: old').isPrefixOf (c :: (old' ++ post)) = true := by
        rw [List.isPrefixOf_iff_prefix]
        exact ⟨post, by simp⟩
      rw [if_pos hpref]
      congr 1
      show (c :: (old' ++ post)).drop (c :: old').length = post
      rw [show c :: (old' ++ post) = (c :: old') ++ post from by simp]
      exact List.drop_left _ _
  | cons c pre' ih =>
    intro post hno
    rw [List.cons_append, replaceFirst]
    have h0 : old.isPrefixOf (c :: (pre' ++ (old ++ post))) = false := by
      have := hno 0 (by simp)
      simpa using this
    rw [if_neg (by simp [h0])]
    rw [ih post fun i hi => by
      have := hno (i + 1) (by simp; omega)
      simpa using this]
    rfl

/-- A modified output of the Normalizer comes from the final substitution
branch: decode succeeded, the search matched, and the result is the
single-occurrence replacement. -/
theorem fixBody_modified (data : List Nat)
    (hmod : fix_svg_dimensions data ≠ data) :
    ∃ (text : List Char) (root : XmlElem) (vbw vbh : Int) (pre tag post : List Char),
      utf8Decode data = some text ∧
      svgSearch text = some (pre, tag, post) ∧
      fix_svg_dimensions data =
        utf8Encode (replaceFirst tag
          (serialize_svg_opening_tag (normalizeRootAttrs root vbw vbh)) text) := by
  cases hdec : utf8Decode data with
  | none =>
    exact absurd (by unfold fix_svg_dimensions fixBody; simp only [hdec]) hmod
  | some text =>
  cases hparse : parseDocumentChars text with
  | error e =>
    exact absurd (by unfold fix_svg_dimensions fixBody; simp only [hdec, hparse]) hmod
  | ok root =>
  by_cases htag : (!(decide (root.tag = svgNsTag) || decide (root.tag = "svg"))) = true
  · exact absurd (by
      unfold fix_svg_dimensions fixBody
      simp only [hdec, hparse]
      simp only [htag, if_true]) hmod
  · have htagf := Bool.eq_false_iff.mpr htag
    cases hw : root.get "width" with
    | some w =>
      by_cases hwn : (decide (w ≠ "100%") && (parse_svg_length w).isSome) = true
      · exact absurd (by
          unfold fix_svg_dimensions fixBody
          simp only [hdec, hparse]
          simp only [htagf, Bool.false_eq_true, if_false, hw]
          simp only [hwn, if_true]) hmod
      · have hwnf := Bool.eq_false_iff.mpr hwn
        cases hvb : root.get "viewBox" with
        | none =>
          exact absurd (by
            unfold fix_svg_dimensions fixBody
            simp only [hdec, hparse]
            simp only [htagf, Bool.false_eq_true, if_false, hw]
            simp only [hwnf, Bool.false_eq_true, if_false, hvb]) hmod
        | some vb =>
        by_cases hvbe : vb = ""
        · exact absurd (by
            unfold fix_svg_dimensions fixBody
            simp only [hdec, hparse]
            simp only [htagf, Bool.false_eq_true, if_false, hw]
            simp only [hwnf, Bool.false_eq_true, if_false, hvb]
            rw [if_pos hvbe]) hmod
        · cases hpv : parse_viewbox vb with
          | error e =>
            exact absurd (by
              unfold fix_svg_dimensions fixBody
              simp only [hdec, hparse]
              simp only [htagf, Bool.false_eq_true, if_false, hw]
              simp only [hwnf, Bool.false_eq_true, if_false, hvb]
              rw [if_neg hvbe]
              simp only [hpv]) hmod
          | ok p =>
            obtain ⟨vbwo, vbho⟩ := p
            cases vbwo with
            | none =>
              exact absurd (by
                unfold fix_svg_dimensions fixBody
                simp only [hdec, hparse]
                simp only [htagf, Bool.false_eq_true, if_false, hw]
                simp only [hwnf, Bool.false_eq_true, if_false, hvb]
                rw [if_neg hvbe]
                simp only [hpv]) hmod
            | some vbw =>
            cases vbho with
            | none =>
              exact absurd (by
                unfold fix_svg_dimensions fixBody
                simp only [hdec, hparse]
                simp only [htagf, Bool.false_eq_true, if_false, hw]
                simp only [hwnf, Bool.false_eq_true, if_false, hvb]
                rw [if_neg hvbe]
                simp only [hpv]) hmod
            | some vbh =>
            cases hsearch : svgSearch text with
            | none =>
              exact absurd (by
                unfold fix_svg_dimensions fixBody
                simp only [hdec, hparse]
                simp only [htagf, Bool.false_eq_true, if_false, hw]
                simp only [hwnf, Bool.false_eq_true, if_false, hvb]
                rw [if_neg hvbe]
                simp only [hpv, hsearch]) hmod
            | some t =>
              obtain ⟨pre, tag, post⟩ := t
              refine ⟨text, root, vbw, vbh, pre, tag, post, rfl, hsearch, ?_⟩
              unfold fix_svg_dimensions fixBody
              simp only [hdec, hparse]
              simp only [htagf, Bool.false_eq_true, if_false, hw]
              simp only [hwnf, Bool.false_eq_true, if_false, hvb]
              rw [if_neg hvbe]
              simp only [hpv, hsearch]
    | none =>
      cases hvb : root.get "viewBox" with
      | none =>
        exact absurd (by
          unfold fix_svg_dimensions fixBody
          simp only [hdec, hparse]
          simp only [htagf, Bool.false_eq_true, if_false, hw]
          simp only [Bool.false_eq_true, if_false, hvb]) hmod
      | some vb =>
      by_cases hvbe : vb = ""
      · exact absurd (by
          unfold fix_svg_dimensions fixBody
          simp only [hdec, hparse]
          simp only [htagf, Bool.false_eq_true, if_false, hw]
          simp only [Bool.false_eq_true, if_false, hvb]
          rw [if_pos hvbe]) hmod
      · cases hpv : parse_viewbox vb with
        | error e =>
          exact absurd (by
            unfold fix_svg_dimensions fixBody
            simp only [hdec, hparse]
            simp only [htagf, Bool.false_eq_true, if_false, hw]
            simp only [Bool.false_eq_true, if_false, hvb]
            rw [if_neg hvbe]
            simp only [hpv]) hmod
        | ok p =>
          obtain ⟨vbwo, vbho⟩ := p
          cases vbwo with
          | none =>
            exact absurd (by
              unfold fix_svg_dimensions fixBody
              simp only [hdec, hparse]
              simp only [htagf, Bool.false_eq_true, if_false, hw]
              simp only [Bool.false_eq_true, if_false, hvb]
              rw [if_neg hvbe]
              simp only [hpv]) hmod
          | some vbw =>
          cases vbho with
          | none =>
            exact absurd (by
              unfold fix_svg_dimensions fixBody
              simp only [hdec, hparse]
              simp only [htagf, Bool.false_eq_true, if_false, hw]
              simp only [Bool.false_eq_true, if_false, hvb]
              rw [if_neg hvbe]
              simp only [hpv]) hmod
          | some vbh =>
          cases hsearch : svgSearch text with
          | none =>
            exact absurd (by
              unfold fix_svg_dimensions fixBody
              simp only [hdec, hparse]
              simp only [htagf, Bool.false_eq_true, if_false, hw]
              simp only [Bool.false_eq_true, if_false, hvb]
              rw [if_neg hvbe]
              simp only [hpv, hsearch]) hmod
          | some t =>
            obtain ⟨pre, tag, post⟩ := t
            refine ⟨text, root, vbw, vbh, pre, tag, post, rfl, hsearch, ?_⟩
            unfold fix_svg_dimensions fixBody
            simp only [hdec, hparse]
            simp only [htagf, Bool.false_eq_true, if_false, hw]
            simp only [Bool.false_eq_true, if_false, hvb]
            rw [if_neg hvbe]
            simp only [hpv, hsearch]

/-- **C2** (byte preservation): whenever the Dimension Normalizer modifies its
input, the decoded text splits as `pre ++ tag ++ post` around the leftmost
regex match, no earlier position carries an occurrence of the matched
substring, and the output is byte-for-byte `pre`, a new tag, then `post`:
exactly one substitution, all bytes outside that span unchanged. -/
theorem fix_svg_dimensions_byte_preservation (data : List Nat)
    (hmod : fix_svg_dimensions data ≠ data) :
    ∃ (pre tag newTag post : List Char),
      utf8Decode data = some (pre ++ tag ++ post) ∧
      svgSearch (pre ++ tag ++ post) = some (pre, tag, post) ∧
      (∀ i, i < pre.length → tag.isPrefixOf ((pre ++ tag ++ post).drop i) = false) ∧
      data = utf8Encode pre ++ utf8Encode tag ++ utf8Encode post ∧
      fix_svg_dimensions data = utf8Encode pre ++ utf8Encode newTag ++ utf8Encode post := by
  obtain ⟨text, root, vbw, vbh, pre, tag, post, hdec, hsearch, hfix⟩ :=
    fixBody_modified data hmod
  obtain ⟨hdecomp, hmm, hleft⟩ := svgSearch_sound text pre tag post hsearch
  have hno : ∀ i, i < pre.length → tag.isPrefixOf (text.drop i) = false := by
    intro i hi
    cases hval : tag.isPrefixOf (text.drop i) with
    | false => rfl
    | true =>
      exfalso
      rw [List.isPrefixOf_iff_prefix] at hval
      obtain ⟨tl, htl⟩ := hval
      obtain ⟨mid, _, hshape, hmid, hb⟩ := svgMatchHere_sound hmm
      have hmatch : svgMatchHere (text.drop i) = some (tag, tl) := by
        rw [← htl, hshape]
        exact svgMatchHere_again mid tl hmid hb
      rw [hleft i hi] at hmatch
      cases hmatch
  have htagne : tag ≠ [] := by
    obtain ⟨mid, _, hshape, _, _⟩ := svgMatchHere_sound hmm
    rw [hshape]
    simp
  have hdecomp2 : text = pre ++ (tag ++ post) := by
    rw [hdecomp, List.append_assoc]
  have hrepl : replaceFirst tag
      (serialize_svg_opening_tag (normalizeRootAttrs root vbw vbh)) text =
      pre ++ (serialize_svg_opening_tag (normalizeRootAttrs root vbw vbh) ++ post) := by
    rw [hdecomp2]
    exact replaceFirst_split tag _ htagne pre post fun i hi => by
      rw [← hdecomp2]
      exact hno i hi
  refine ⟨pre, tag, serialize_svg_opening_tag (normalizeRootAttrs root vbw vbh), post,
    ?_, ?_, ?_, ?_, ?_⟩
  · rw [← hdecomp]
    exact hdec
  · rw [← hdecomp]
    exact hsearch
  · intro i hi
    rw [← hdecomp]
    exact hno i hi
  · have hrt := utf8_roundtrip data text hdec
    rw [← hrt, hdecomp, utf8Encode_append, utf8Encode_append]
  · rw [hfix, hrepl, utf8Encode_append, utf8Encode_append, List.append_assoc]

/-- Witness for C2: the Normalizer rewrites the canonical percent-width
document and the decomposition is exhibited. -/
theorem fix_svg_dimensions_byte_preservation_witness :
    ∃ (pre tag newTag post : List Char),
      utf8Decode (utf8Encode "<svg width=\"100%\" viewBox=\"0 0 3 2\"></svg>".data) =
        some (pre ++ tag ++ post) ∧
      svgSearch (pre ++ tag ++ post) = some (pre, tag, post) ∧
      (∀ i, i < pre.length → tag.isPrefixOf ((pre ++ tag ++ post).drop i) = false) ∧
      utf8Encode "<svg width=\"100%\" viewBox=\"0 0 3 2\"></svg>".data =
        utf8Encode pre ++ utf8Encode tag ++ utf8Encode post ∧
      fix_svg_dimensions (utf8Encode "<svg width=\"100%\" viewBox=\"0 0 3 2\"></svg>".data) =
        utf8Encode pre ++ utf8Encode newTag ++ utf8Encode post :=
  fix_svg_dimensions_byte_preservation _ (by decide)

/-- Every `utf8EncodeChar` output is non-empty. -/
theorem utf8EncodeChar_length_pos (c : Char) : 1 ≤ (utf8EncodeChar c).length := by
  unfold utf8EncodeChar
  by_cases h1 : c.toNat < 0x80
  · simp [h1]
  · by_cases h2 : c.toNat < 0x800
    · simp [h1, h2]
    · by_cases h3 : c.toNat < 0x10000
      · simp [h1, h2, h3]
      · simp [h1, h2, h3]

theorem utf8DecodeF_encodeChar (f : Nat) (c : Char) (rest : List Nat) :
    utf8DecodeF (f + 1) (utf8EncodeChar c ++ rest) =
      (utf8DecodeF f rest).map fun cs => c :: cs := by
  have hvalid : c.toNat.isValidChar := c.valid
  by_cases h1 : c.toNat < 0x80
  · rw [show utf8EncodeChar c = [c.toNat] from by unfold utf8EncodeChar; rw [if_pos h1]]
    rw [List.singleton_append]
    cases rest with
    | nil => rw [utf8DecodeF.eq_4, if_pos h1, Char.ofNat_toNat]
    | cons b2 r2 => rw [utf8DecodeF.eq_3, if_pos h1, Char.ofNat_toNat]
  · by_cases h2 : c.toNat < 0x800
    · rw [show utf8EncodeChar c = [0xC0 + c.toNat / 0x40, 0x80 + c.toNat % 0x40] from by
        unfold utf8EncodeChar; rw [if_neg h1, if_pos h2]]
      simp only [List.cons_append, List.nil_append]
      rw [utf8DecodeF.eq_3,
        if_neg (by omega),
        if_pos (by simp only [Bool.and_eq_true, decide_eq_true_eq]; omega),
        if_pos (by simp only [isCont, Bool.and_eq_true, decide_eq_true_eq]; omega),
        show (0xC0 + c.toNat / 0x40 - 0xC0) * 0x40 + (0x80 + c.toNat % 0x40 - 0x80) =
          c.toNat from by omega,
        Char.ofNat_toNat]
    · by_cases h3 : c.toNat < 0x10000
      · have hsur : c.toNat < 0xD800 ∨ 0xE000 ≤ c.toNat := by
          rcases hvalid with h | ⟨h, _⟩
          · exact Or.inl h
          · exact Or.inr h
        rw [show utf8EncodeChar c = [0xE0 + c.toNat / 0x1000,
            0x80 + c.toNat / 0x40 % 0x40, 0x80 + c.toNat % 0x40] from by
          unfold utf8EncodeChar; rw [if_neg h1, if_neg h2, if_pos h3]]
        simp only [List.cons_append, List.nil_append]
        rw [utf8DecodeF.eq_3,
          if_neg (by omega),
          if_neg (by simp only [Bool.and_eq_true, decide_eq_true_eq]; omega),
          if_pos (by simp only [Bool.and_eq_true, decide_eq_true_eq]; omega)]
        dsimp only
        rw [if_pos (by
          simp only [isCont, Bool.and_eq_true, decide_eq_true_eq]
          refine ⟨⟨?_, ?_⟩, by omega, by omega⟩
          · by_cases hE0 : 0xE0 + c.toNat / 0x1000 = 0xE0
            · rw [if_pos hE0]
              omega
            · rw [if_neg hE0]
              omega
          · by_cases hED : 0xE0 + c.toNat / 0x1000 = 0xED
            · rw [if_pos hED]
              rcases hsur with h | h <;> omega
            · rw [if_neg hED]
              omega)]
        rw [show (0xE0 + c.toNat / 0x1000 - 0xE0) * 0x1000 +
            (0x80 + c.toNat / 0x40 % 0x40 - 0x80) * 0x40 +
            (0x80 + c.toNat % 0x40 - 0x80) = c.toNat from by omega,
          Char.ofNat_toNat]
      · have hub : c.toNat < 0x110000 := by
          rcases hvalid with h | ⟨_, h⟩
          · omega
          · exact h
        rw [show utf8EncodeChar c = [0xF0 + c.toNat / 0x40000,
            0x80 + c.toNat / 0x1000 % 0x40, 0x80 + c.toNat / 0x40 % 0x40,
            0x80 + c.toNat % 0x40] from by
          unfold utf8EncodeChar; rw [if_neg h1, if_neg h2, if_neg h3]]
        simp only [List.cons_append, List.nil_append]
        rw [utf8DecodeF.eq_3,
          if_neg (by omega),
          if_neg (by simp only [Bool.and_eq_true, decide_eq_true_eq]; omega),
          if_neg (by simp only [Bool.and_eq_true, decide_eq_true_eq]; omega),
          if_pos (by simp only [Bool.and_eq_true, decide_eq_true_eq]; omega)]
        dsimp only
        rw [if_pos (by
          simp only [isCont, Bool.and_eq_true, decide_eq_true_eq]
          refine ⟨⟨⟨?_, ?_⟩, by omega, by omega⟩, by omega, by omega⟩
          · by_cases hF0 : 0xF0 + c.toNat / 0x40000 = 0xF0
            · rw [if_pos hF0]
              omega
            · rw [if_neg hF0]
              omega
          · by_cases hF4 : 0xF0 + c.toNat / 0x40000 = 0xF4
            · rw [if_pos hF4]
              omega
            · rw [if_neg hF4]
              omega)]
        rw [show (0xF0 + c.toNat / 0x40000 - 0xF0) * 0x40000 +
            (0x80 + c.toNat / 0x1000 % 0x40 - 0x80) * 0x1000 +
            (0x80 + c.toNat / 0x40 % 0x40 - 0x80) * 0x40 +
            (0x80 + c.toNat % 0x40 - 0x80) = c.toNat from by omega,
          Char.ofNat_toNat]

theorem utf8Decode_utf8Encode :
    ∀ (l : List Char) (f : Nat), (utf8Encode l).length ≤ f →
      utf8DecodeF f (utf8Encode l) = some l := by
  intro l
  induction l with
  | nil =>
    intro f _
    rw [show utf8Encode [] = [] from rfl, utf8DecodeF.eq_1]
  | cons c l ih =>
    intro f hlen
    rw [utf8Encode_cons] at hlen ⊢
    have h0 : (utf8EncodeChar c).length + (utf8Encode l).length ≤ f := by
      rw [← List.length_append]
      exact hlen
    have hcp := utf8EncodeChar_length_pos c
    cases f with
    | zero =>
      exfalso
      omega
    | succ f =>
      rw [utf8DecodeF_encodeChar f c (utf8Encode l), ih f (by omega)]
      rfl

theorem utf8Decode_encode_id (l : List Char) : utf8Decode (utf8Encode l) = some l :=
  utf8Decode_utf8Encode l (utf8Encode l).length le_rfl

/-- **C4** (output contract, corrected): each transform returns either the
input unchanged or bytes that re-decode as UTF-8 — the encoding half of the
contract holds.  The well-formed-XML half of the original claim is refuted by
`fix_svg_dimensions_output_not_wellformed`: the serializer never re-emits a
self-closing root, so a modified self-closing document loses its closing
delimiter. -/
theorem transforms_output_utf8 :
    (∀ data : List Nat, fix_svg_dimensions data = data ∨
      ∃ cs : List Char, utf8Decode (fix_svg_dimensions data) = some cs) ∧
    (∀ data : List Nat, convert_foreign_object_to_text data = data ∨
      ∃ cs : List Char, utf8Decode (convert_foreign_object_to_text data) = some cs) := by
  constructor
  · intro data
    by_cases hmod : fix_svg_dimensions data = data
    · exact Or.inl hmod
    · right
      obtain ⟨text, root, vbw, vbh, pre, tag, post, hdec, hsearch, hfix⟩ :=
        fixBody_modified data hmod
      refine ⟨replaceFirst tag
        (serialize_svg_opening_tag (normalizeRootAttrs root vbw vbh)) text, ?_⟩
      rw [hfix]
      exact utf8Decode_encode_id _
  · intro data
    cases hb : convertBody data with
    | error e =>
      left
      unfold convert_foreign_object_to_text
      rw [hb]
    | ok v =>
      have hcv : convert_foreign_object_to_text data = v := by
        unfold convert_foreign_object_to_text
        rw [hb]
      unfold convertBody at hb
      cases hf : fromstringBytes data with
      | error e =>
        rw [hf] at hb
        cases hb
      | ok root =>
        rw [hf] at hb
        dsimp only at hb
        by_cases hfo : (!hasFO root) = true
        · rw [if_pos hfo] at hb
          cases hb
          exact Or.inl hcv
        · rw [if_neg hfo] at hb
          cases hse : foCheckElem root with
          | error e =>
            rw [hse] at hb
            cases hb
          | ok u =>
            rw [hse] at hb
            dsimp only at hb
            cases ht : transformElem root with
            | error e =>
              rw [ht] at hb
              cases hb
            | ok root2 =>
              rw [ht] at hb
              cases hb
              right
              refine ⟨tostringUnicode root2, ?_⟩
              rw [hcv]
              exact utf8Decode_encode_id _

/-- Counterexample to C4 as stated: the Normalizer modifies a well-formed
self-closing document into bytes that are no longer well-formed XML. -/
theorem fix_svg_dimensions_output_not_wellformed :
    (fromstringBytes (utf8Encode "<svg width=\"100%\" viewBox=\"0 0 3 2\"/>".data)).isOk
        = true ∧
    fix_svg_dimensions (utf8Encode "<svg width=\"100%\" viewBox=\"0 0 3 2\"/>".data) ≠
      utf8Encode "<svg width=\"100%\" viewBox=\"0 0 3 2\"/>".data ∧
    (fromstringBytes (fix_svg_dimensions
        (utf8Encode "<svg width=\"100%\" viewBox=\"0 0 3 2\"/>".data))).isOk = false :=
  ⟨by decide, by decide, by decide⟩

/-- The Normalizer is a no-op on a document whose width attribute is numeric
and valid (shared helper for the idempotence analysis). -/
theorem fix_noop_of_numeric_width (data : List Nat) (text : List Char)
    (root : XmlElem) (w : String) (n : Int)
    (h1 : utf8Decode data = some text)
    (h2 : parseDocumentChars text = .ok root)
    (h4 : root.get "width" = some w)
    (h5 : parse_svg_length w = some n) :
    fix_svg_dimensions data = data := by
  have hwp : w ≠ "100%" := by
    intro hc
    rw [hc] at h5
    have hz : parse_svg_length "100%" = none := by decide
    rw [hz] at h5
    cases h5
  unfold fix_svg_dimensions fixBody
  simp only [h1, h2]
  by_cases htag : (!(decide (root.tag = svgNsTag) || decide (root.tag = "svg"))) = true
  · simp only [htag, if_true]
  · have htagf := Bool.eq_false_iff.mpr htag
    simp only [htagf, Bool.false_eq_true, if_false, h4]
    have hnum : (decide (w ≠ "100%") && (parse_svg_length w).isSome) = true := by
      simp [hwp, h5]
    simp only [hnum, if_true]

/-- **C7** (idempotence, corrected): a second application is a no-op on any
input the first pass left unchanged, and, generally, whenever the first
pass's output parses with a numeric, valid width — in particular on the
documented percent-width scenario.  Unrestricted idempotence is refuted by
`fix_svg_dimensions_not_idempotent`: a comment containing `<svg a>` plus a
`>` inside an attribute value makes the second pass rewrite again. -/
theorem fix_svg_dimensions_idempotent_cases :
    (∀ data : List Nat, fix_svg_dimensions data = data →
      fix_svg_dimensions (fix_svg_dimensions data) = fix_svg_dimensions data) ∧
    (∀ (data : List Nat) (text2 : List Char) (root2 : XmlElem) (w : String) (n : Int),
      utf8Decode (fix_svg_dimensions data) = some text2 →
      parseDocumentChars text2 = .ok root2 →
      root2.get "width" = some w →
      parse_svg_length w = some n →
      fix_svg_dimensions (fix_svg_dimensions data) = fix_svg_dimensions data) ∧
    fix_svg_dimensions (fix_svg_dimensions
        (utf8Encode "<svg width=\"100%\" viewBox=\"0 0 3 2\"></svg>".data)) =
      fix_svg_dimensions (utf8Encode "<svg width=\"100%\" viewBox=\"0 0 3 2\"></svg>".data) := by
  refine ⟨?_, ?_, by decide⟩
  · intro data h
    rw [h, h]
  · intro data text2 root2 w n h1 h2 h4 h5
    exact fix_noop_of_numeric_width (fix_svg_dimensions data) text2 root2 w n h1 h2 h4 h5

/-- Witness for C7's conditional conjuncts at concrete inputs. -/
theorem fix_svg_dimensions_idempotent_cases_witness :
    fix_svg_dimensions (fix_svg_dimensions
        (utf8Encode "<svg width=\"5\" viewBox=\"0 0 3 2\"></svg>".data)) =
      fix_svg_dimensions (utf8Encode "<svg width=\"5\" viewBox=\"0 0 3 2\"></svg>".data) :=
  fix_svg_dimensions_idempotent_cases.1
    (utf8Encode "<svg width=\"5\" viewBox=\"0 0 3 2\"></svg>".data) (by decide)

/-- Counterexample to C7 as stated: applying the Normalizer twice to this
document is not the same as applying it once — the regex match in pass two
starts inside a comment and swallows into an attribute value. -/
theorem fix_svg_dimensions_not_idempotent :
    fix_svg_dimensions (fix_svg_dimensions
        (utf8Encode "<!--<svg a>--><svg width=\"100%\" viewBox=\"0 0 3 2\" t=\">\"/>".data)) ≠
      fix_svg_dimensions
        (utf8Encode "<!--<svg a>--><svg width=\"100%\" viewBox=\"0 0 3 2\" t=\">\"/>".data) := by
  decide

end Svg
